import Mathlib

/-!
Verification development for the db-chatbot query-intent execution engine.

The definitions below are a shallow embedding of the TypeScript sources
(`src/lib/types.ts`, `src/lib/format.ts`, `src/lib/data.ts`,
`src/lib/executor.ts`, `src/lib/cross-collection.ts`, `src/lib/merge.ts`).
JavaScript numbers are modelled as rationals (ℚ); fallible/absent values as
`Option`; loosely-typed document fields as the `RawValue` sum.  The document
store itself is an external collaborator (spec §1, §6): its indexed queries
(`where` equality + `orderBy` + `limit`) are modelled as list filtering, a
stable sort on the named numeric field, and `List.take`, per spec §6
`getByQuery`.
-/

/-- The three finance collection names (`COLLECTIONS` in types.ts). -/
inductive CollectionName
  | college1
  | school1
  | school2
deriving DecidableEq, Repr

/-- String form of a collection name, as used at runtime. -/
def collectionNameStr : CollectionName → String
  | .college1 => "college1"
  | .school1 => "school1"
  | .school2 => "school2"

/-- The `Metric` union from types.ts (18 variants across three datasets). -/
inductive Metric
  | income | profit | expenditure | salary | rent | electricity | misc | staff
  | medals | coaches | events | teams | sports_budget
  | students | teachers | pass_rate | avg_grade | dropout_rate
deriving DecidableEq, Repr

/-- Runtime string of a metric name (TS string-literal union member). -/
def metricStr : Metric → String
  | .income => "income" | .profit => "profit" | .expenditure => "expenditure"
  | .salary => "salary" | .rent => "rent" | .electricity => "electricity"
  | .misc => "misc" | .staff => "staff"
  | .medals => "medals" | .coaches => "coaches" | .events => "events"
  | .teams => "teams" | .sports_budget => "sports_budget"
  | .students => "students" | .teachers => "teachers" | .pass_rate => "pass_rate"
  | .avg_grade => "avg_grade" | .dropout_rate => "dropout_rate"

/-- `BreakdownMode` from types.ts. -/
inductive BreakdownMode
  | none
  | collection
deriving DecidableEq, Repr

/-- `StatusFilter` from types.ts. -/
inductive StatusFilter
  | active
  | inactive
  | any
deriving DecidableEq, Repr

/-- The two-valued `Status` type from types.ts (sports/education records). -/
inductive Status
  | active
  | inactive
deriving DecidableEq, Repr

/-- Runtime string of a two-valued status. -/
def statusStr : Status → String
  | .active => "active"
  | .inactive => "inactive"

/-- The three-valued normalized campus status (`'active'|'inactive'|'unknown'`
union used for `CampusRecord.status`). -/
inductive CampusStatus
  | active
  | inactive
  | unknown
deriving DecidableEq, Repr

/-- Runtime string of a normalized campus status. -/
def campusStatusStr : CampusStatus → String
  | .active => "active"
  | .inactive => "inactive"
  | .unknown => "unknown"

/-- `SortOrder` from types.ts. -/
inductive SortOrder
  | asc
  | desc
deriving DecidableEq, Repr

/-- A loosely-typed JavaScript document field value: a (finite) number, a
string, absent (`undefined`/`null`), or some other non-string non-number
value (boolean/object), which `toNumber` coerces to 0 and the string
guards (`typeof x === 'string'`) reject. -/
inductive RawValue
  | num (q : ℚ)
  | str (s : String)
  | missing
  | other
deriving DecidableEq, Repr

/-- Digit-accumulation helper for the `parseFloat` model: consumes leading
decimal digits, returning the accumulated value, the count of digits
consumed, and the rest of the input. -/
def parseDigits : List Char → ℕ → ℕ → ℕ × ℕ × List Char
  | [], acc, cnt => (acc, cnt, [])
  | c :: cs, acc, cnt =>
    if c.isDigit then parseDigits cs (10 * acc + (c.toNat - '0'.toNat)) (cnt + 1)
    else (acc, cnt, c :: cs)

/-- Model of `Number.parseFloat` on a string already cleaned to the character
set `[0-9.-]`: an optional leading minus sign, integer digits, and an
optional fractional part; `none` when no digit is consumed (NaN). Any
trailing garbage is ignored, as `parseFloat` stops at the first invalid
character. -/
def parseFloatQ (cs : List Char) : Option ℚ :=
  let (sign, rest) : ℚ × List Char :=
    match cs with
    | '-' :: cs' => (-1, cs')
    | _ => (1, cs)
  let (ip, icnt, rest1) := parseDigits rest 0 0
  let (fp, fcnt, _) :=
    match rest1 with
    | '.' :: cs' => parseDigits cs' 0 0
    | _ => (0, 0, [])
  if icnt + fcnt = 0 then none
  else some (sign * ((ip : ℚ) + (fp : ℚ) / ((10 : ℚ) ^ fcnt)))

/-- `toNumber` from format.ts: finite numbers pass through; strings are
cleaned with `replace(/[^0-9.-]+/g, '')` and parsed with `parseFloat`
(non-finite parses yield 0); everything else coerces to 0. -/
def toNumber : RawValue → ℚ
  | .num q => q
  | .str s =>
    let cleaned := s.toList.filter (fun c => c.isDigit || c == '.' || c == '-')
    match parseFloatQ cleaned with
    | some q => q
    | none => 0
  | .missing => 0
  | .other => 0

/-- JS `String.prototype.toLowerCase` (ASCII, matching the data in this
application), defined over the character list so that it evaluates inside
the kernel. -/
def jsToLower (s : String) : String :=
  ⟨s.data.map Char.toLower⟩

/-- JS `String.prototype.trim`: strip leading and trailing whitespace. -/
def jsTrim (s : String) : String :=
  ⟨((s.data.dropWhile Char.isWhitespace).reverse.dropWhile
      Char.isWhitespace).reverse⟩

/-- Boolean substring test: `String.includes` from JavaScript. -/
def strIncludes (s pat : String) : Bool :=
  (s.toList.tails.any fun t => pat.toList.isPrefixOf t)

/-- `normalizeStatus` from data.ts: non-strings map to `unknown`; otherwise
the trimmed lowercased string is checked for the substring `"inactive"`
first, then `"active"`; anything else is `unknown`. -/
def normalizeStatus : RawValue → CampusStatus
  | .str s =>
    let normalized := jsToLower (jsTrim s)
    if strIncludes normalized "inactive" then .inactive
    else if strIncludes normalized "active" then .active
    else .unknown
  | _ => .unknown

/-- Projection of a raw field to an optional string
(`typeof x === 'string' ? x : undefined`). -/
def rawAsOptString : RawValue → Option String
  | .str s => some s
  | _ => none

/-- JavaScript `String(v)` for the values we model (used for `?? ""`-guarded
fields, so `missing` never reaches it in practice; `other` is an opaque
non-string non-number value whose stringification we leave as `""`). -/
def rawToStringJs : RawValue → String
  | .str s => s
  | .num q => toString q
  | .missing => ""
  | .other => ""

/-- A raw finance document as stored in the document store: a store-assigned
id plus loosely-typed fields.  `expenditure` and `profit` may be present in
the stored document; `mapDocument` ignores them. -/
structure RawDoc where
  id : String
  code : RawValue := .missing
  name : RawValue := .missing
  location : RawValue := .missing
  type : RawValue := .missing
  status : RawValue := .missing
  rent : RawValue := .missing
  salary : RawValue := .missing
  electricity : RawValue := .missing
  misc : RawValue := .missing
  income : RawValue := .missing
  staff : RawValue := .missing
  expenditure : RawValue := .missing
  profit : RawValue := .missing
deriving DecidableEq, Repr

/-- The normalized `CampusRecord` from types.ts.  The source attaches
sports/education payload fields through `any`-casts when converting dataset
records; those appear here as optional fields that the finance reader leaves
absent.  `collectionTag` is the source's `__collection` (a string at runtime:
a finance collection name, `"sports"`, `"education"`, or `"merged"`), and
`datasetTag` is `__datasetType`. -/
structure CampusRecord where
  id : String
  collectionTag : String
  code : String
  name : Option String := none
  location : Option String := none
  statusRaw : Option String := none
  status : CampusStatus
  type : Option String := none
  rent : ℚ := 0
  salary : ℚ := 0
  electricity : ℚ := 0
  misc : ℚ := 0
  income : ℚ := 0
  staff : ℚ := 0
  expenditure : ℚ := 0
  profit : ℚ := 0
  datasetTag : Option String := none
  teams : Option ℚ := none
  coaches : Option ℚ := none
  playgrounds : Option ℚ := none
  events : Option ℚ := none
  medals : Option ℚ := none
  budget : Option ℚ := none
  students : Option ℚ := none
  teachers : Option ℚ := none
  pass_rate : Option ℚ := none
  avg_grade : Option ℚ := none
  dropout_rate : Option ℚ := none
  labs : Option ℚ := none
  library_books : Option ℚ := none
  programs : Option ℚ := none
deriving DecidableEq, Repr

/-- `expenditureOf` from format.ts. -/
def expenditureOf (r : CampusRecord) : ℚ :=
  r.rent + r.salary + r.electricity + r.misc

/-- `profitOf` from format.ts. -/
def profitOf (r : CampusRecord) : ℚ :=
  r.income - expenditureOf r

/-- The code fallback in `mapDocument`: `doc.code` when it is neither
`undefined`/`null` nor the empty string (stringified), else the document id. -/
def codeOf (code : RawValue) (id : String) : String :=
  match code with
  | .missing => id
  | .str "" => id
  | .str s => s
  | .num q => toString q
  | .other => id

/-- `mapDocument` from data.ts: coerce the six numeric fields, normalize the
status, and recompute `expenditure`/`profit` from the base fields (the stored
`expenditure`/`profit` fields are never read). -/
def mapDocument (doc : RawDoc) (c : CollectionName) : CampusRecord :=
  let rent := toNumber doc.rent
  let salary := toNumber doc.salary
  let electricity := toNumber doc.electricity
  let misc := toNumber doc.misc
  let income := toNumber doc.income
  let staff := toNumber doc.staff
  let base : CampusRecord :=
    { id := doc.id
      collectionTag := collectionNameStr c
      code := codeOf doc.code doc.id
      name := rawAsOptString doc.name
      location := rawAsOptString doc.location
      type := rawAsOptString doc.type
      statusRaw := rawAsOptString doc.status
      status := normalizeStatus doc.status
      rent := rent, salary := salary, electricity := electricity
      misc := misc, income := income, staff := staff
      expenditure := 0, profit := 0 }
  let base := { base with expenditure := expenditureOf base }
  { base with profit := profitOf base }

/-!
Stable sorting.  `Array.prototype.sort` with the numeric comparator used in
`sortRecordsClientSide` is guaranteed stable (ES2019), and a descending
comparator `b - a` is the same stable sort as an ascending sort on the negated
key.  We model every sort in the system as `ssort key`, a stable insertion
sort ascending on a rational key.
-/

/-- Stable insertion of `x` into `l`: `x` is placed before the first element
whose key is not smaller, hence after all earlier elements with equal keys. -/
def insertLe {α : Type} (key : α → ℚ) (x : α) : List α → List α
  | [] => [x]
  | y :: ys => if key x ≤ key y then x :: y :: ys else y :: insertLe key x ys

/-- Stable insertion sort ascending on `key`. -/
def ssort {α : Type} (key : α → ℚ) : List α → List α
  | [] => []
  | x :: xs => insertLe key x (ssort key xs)

/-- Sortedness with respect to a key function. -/
def KSorted {α : Type} (key : α → ℚ) (l : List α) : Prop :=
  List.Pairwise (fun a b => key a ≤ key b) l

theorem mem_insertLe {α : Type} {key : α → ℚ} {x z : α} :
    ∀ {l : List α}, z ∈ insertLe key x l ↔ z = x ∨ z ∈ l := by
  intro l
  induction l with
  | nil => simp [insertLe]
  | cons y ys ih =>
    by_cases h : key x ≤ key y
    · simp [insertLe, h]
    · simp only [insertLe, if_neg h, List.mem_cons, ih]
      tauto

theorem ksorted_insertLe {α : Type} {key : α → ℚ} {x : α} :
    ∀ {l : List α}, KSorted key l → KSorted key (insertLe key x l) := by
  intro l
  induction l with
  | nil => intro _; simp [insertLe, KSorted]
  | cons y ys ih =>
    intro hs
    rcases (List.pairwise_cons.mp hs) with ⟨hy, hys⟩
    unfold KSorted
    simp only [insertLe]
    by_cases h : key x ≤ key y
    · rw [if_pos h]
      refine List.pairwise_cons.mpr ⟨?_, hs⟩
      intro z hz
      rcases List.mem_cons.mp hz with rfl | hz'
      · exact h
      · exact le_trans h (hy z hz')
    · rw [if_neg h]
      refine List.pairwise_cons.mpr ⟨?_, ih hys⟩
      intro z hz
      rcases mem_insertLe.mp hz with rfl | hz'
      · exact le_of_not_le h
      · exact hy z hz'

theorem ksorted_ssort {α : Type} (key : α → ℚ) :
    ∀ l : List α, KSorted key (ssort key l)
  | [] => by simp [ssort, KSorted]
  | x :: xs => ksorted_insertLe (ksorted_ssort key xs)

theorem filter_insertLe_of_ne {α : Type} {key : α → ℚ} {x : α} {q : ℚ}
    (hx : key x ≠ q) :
    ∀ l : List α,
      (insertLe key x l).filter (fun y => decide (key y = q)) =
        l.filter (fun y => decide (key y = q)) := by
  intro l
  induction l with
  | nil => simp [insertLe, hx]
  | cons y ys ih =>
    by_cases h : key x ≤ key y
    · simp [insertLe, h, List.filter_cons, hx]
    · simp only [insertLe, if_neg h, List.filter_cons, ih]

theorem filter_insertLe_of_eq {α : Type} {key : α → ℚ} {x : α} {q : ℚ}
    (hx : key x = q) :
    ∀ l : List α, KSorted key l →
      (insertLe key x l).filter (fun y => decide (key y = q)) =
        x :: l.filter (fun y => decide (key y = q)) := by
  intro l
  induction l with
  | nil => simp [insertLe, hx]
  | cons y ys ih =>
    intro hs
    rcases (List.pairwise_cons.mp hs) with ⟨hy, hys⟩
    simp only [insertLe]
    by_cases h : key x ≤ key y
    · rw [if_pos h, List.filter_cons, if_pos (by simp [hx]), List.filter_cons]
    · have hylt : key y < key x := lt_of_not_le h
      have hyne : ¬ (key y = q) := by rw [← hx]; exact ne_of_lt hylt
      rw [if_neg h, List.filter_cons, if_neg (by simp [hyne]), ih hys,
        List.filter_cons, if_neg (by simp [hyne])]

theorem filter_ssort {α : Type} (key : α → ℚ) (q : ℚ) :
    ∀ l : List α,
      (ssort key l).filter (fun y => decide (key y = q)) =
        l.filter (fun y => decide (key y = q)) := by
  intro l
  induction l with
  | nil => rfl
  | cons x xs ih =>
    by_cases hx : key x = q
    · rw [ssort, filter_insertLe_of_eq hx _ (ksorted_ssort key xs), ih,
        List.filter_cons, if_pos (by simp [hx])]
    · rw [ssort, filter_insertLe_of_ne hx, ih, List.filter_cons,
        if_neg (by simp [hx])]

theorem filter_eq_nil_of_forall {α : Type} {p : α → Bool} {l : List α}
    (h : ∀ a ∈ l, p a = false) : l.filter p = [] := by
  induction l with
  | nil => rfl
  | cons x xs ih =>
    rw [List.filter_cons, if_neg (by simp [h x (List.mem_cons_self x xs)])]
    exact ih (fun a ha => h a (List.mem_cons_of_mem x ha))

theorem ksorted_three_split {α : Type} {key : α → ℚ} (q : ℚ) :
    ∀ {l : List α}, KSorted key l →
      l = l.filter (fun y => decide (key y < q)) ++
          l.filter (fun y => decide (key y = q)) ++
          l.filter (fun y => decide (q < key y)) := by
  intro l
  induction l with
  | nil => intro _; rfl
  | cons x xs ih =>
    intro hs
    rcases (List.pairwise_cons.mp hs) with ⟨hx, hxs⟩
    rcases lt_trichotomy (key x) q with hlt | heq | hgt
    · rw [List.filter_cons, if_pos (by simp [hlt]),
        List.filter_cons, if_neg (by simp [ne_of_lt hlt]),
        List.filter_cons, if_neg (by simp [not_lt_of_gt hlt])]
      simpa using congrArg (x :: ·) (ih hxs)
    · have hnil : xs.filter (fun y => decide (key y < q)) = [] := by
        refine filter_eq_nil_of_forall (fun a ha => ?_)
        have := hx a ha
        simp only [decide_eq_false_iff_not, not_lt]
        rw [← heq]; exact this
      rw [List.filter_cons, if_neg (by simp [heq]),
        List.filter_cons, if_pos (by simp [heq]),
        List.filter_cons, if_neg (by simp [heq]), hnil]
      have ht := ih hxs
      rw [hnil] at ht
      simpa using congrArg (x :: ·) ht
    · have hnil : xs.filter (fun y => decide (key y < q)) = [] := by
        refine filter_eq_nil_of_forall (fun a ha => ?_)
        have := le_trans (le_of_lt hgt) (hx a ha)
        simp only [decide_eq_false_iff_not, not_lt]
        exact this
      have hnil2 : xs.filter (fun y => decide (key y = q)) = [] := by
        refine filter_eq_nil_of_forall (fun a ha => ?_)
        have := lt_of_lt_of_le hgt (hx a ha)
        simp only [decide_eq_false_iff_not]
        exact (ne_of_gt this)
      rw [List.filter_cons, if_neg (by simp [not_lt_of_gt (gt_iff_lt.mpr hgt)]),
        List.filter_cons, if_neg (by simp [ne_of_gt hgt]),
        List.filter_cons, if_pos (by simp [hgt]), hnil, hnil2]
      have ht := ih hxs
      rw [hnil, hnil2] at ht
      simpa using congrArg (x :: ·) ht

theorem ksorted_ext {α : Type} {key : α → ℚ} :
    ∀ (l₁ l₂ : List α), KSorted key l₁ → KSorted key l₂ →
      (∀ q, l₁.filter (fun y => decide (key y = q)) =
            l₂.filter (fun y => decide (key y = q))) → l₁ = l₂ := by
  intro l₁
  induction l₁ with
  | nil =>
    intro l₂ _ _ hf
    cases l₂ with
    | nil => rfl
    | cons b t₂ =>
      exfalso
      have := hf (key b)
      rw [List.filter_cons, if_pos (by simp)] at this
      simp at this
  | cons a t₁ ih =>
    intro l₂ h₁ h₂ hf
    cases l₂ with
    | nil =>
      exfalso
      have := hf (key a)
      rw [List.filter_cons, if_pos (by simp)] at this
      simp at this
    | cons b t₂ =>
      rcases (List.pairwise_cons.mp h₁) with ⟨ha, ht₁⟩
      rcases (List.pairwise_cons.mp h₂) with ⟨hb, ht₂⟩
      have hkey : key a = key b := by
        by_contra hne
        rcases lt_or_gt_of_ne hne with hlt | hgt
        · have := hf (key a)
          rw [List.filter_cons, if_pos (by simp)] at this
          rw [List.filter_cons, if_neg (by simp [(ne_of_lt hlt).symm])] at this
          have hnil : t₂.filter (fun y => decide (key y = key a)) = [] := by
            refine filter_eq_nil_of_forall (fun z hz => ?_)
            have := lt_of_lt_of_le hlt (hb z hz)
            simp [(ne_of_gt this)]
          rw [hnil] at this
          simp at this
        · have := hf (key b)
          rw [List.filter_cons, if_neg (by simp [ne_of_gt hgt])] at this
          rw [List.filter_cons, if_pos (by simp)] at this
          have hnil : t₁.filter (fun y => decide (key y = key b)) = [] := by
            refine filter_eq_nil_of_forall (fun z hz => ?_)
            have := lt_of_lt_of_le hgt (ha z hz)
            simp [(ne_of_gt this)]
          rw [hnil] at this
          simp at this
      have hab : a = b := by
        have := hf (key a)
        rw [List.filter_cons, if_pos (by simp),
          List.filter_cons, if_pos (by simp [hkey])] at this
        exact (List.cons.injEq _ _ _ _ ▸ this).1
      subst hab
      refine congrArg (a :: ·) (ih t₂ ht₁ ht₂ (fun q => ?_))
      by_cases hq : key a = q
      · have := hf q
        rw [List.filter_cons, if_pos (by simp [hq]),
          List.filter_cons, if_pos (by simp [hq])] at this
        exact (List.cons.injEq _ _ _ _ ▸ this).2
      · have := hf q
        rwa [List.filter_cons, if_neg (by simp [hq]),
          List.filter_cons, if_neg (by simp [hq])] at this

theorem ssort_eq_of_filter_eq {α : Type} {key : α → ℚ} {l l' : List α}
    (h : ∀ q, l.filter (fun y => decide (key y = q)) =
              l'.filter (fun y => decide (key y = q))) :
    ssort key l = ssort key l' :=
  ksorted_ext _ _ (ksorted_ssort key l) (ksorted_ssort key l')
    (fun q => by rw [filter_ssort, filter_ssort]; exact h q)

theorem perm_insertLe {α : Type} (key : α → ℚ) (x : α) :
    ∀ l : List α, List.Perm (insertLe key x l) (x :: l) := by
  intro l
  induction l with
  | nil => simp [insertLe]
  | cons y ys ih =>
    by_cases h : key x ≤ key y
    · simp [insertLe, h]
    · simp only [insertLe, if_neg h]
      exact List.Perm.trans (List.Perm.cons y ih) (List.Perm.swap x y ys)

theorem perm_ssort {α : Type} (key : α → ℚ) :
    ∀ l : List α, List.Perm (ssort key l) l := by
  intro l
  induction l with
  | nil => simp [ssort]
  | cons x xs ih =>
    exact List.Perm.trans (perm_insertLe key x (ssort key xs)) (List.Perm.cons x ih)

theorem length_filter_perm {α : Type} {l l' : List α} (p : α → Bool)
    (h : List.Perm l l') : (l.filter p).length = (l'.filter p).length :=
  (h.filter p).length_eq

theorem length_filter_le_split {α : Type} (key : α → ℚ) (q : ℚ) :
    ∀ l : List α,
      (l.filter (fun y => decide (key y ≤ q))).length =
        (l.filter (fun y => decide (key y < q))).length +
        (l.filter (fun y => decide (key y = q))).length := by
  intro l
  induction l with
  | nil => rfl
  | cons x xs ih =>
    by_cases hx : key x ≤ q
    · rcases lt_or_eq_of_le hx with hlt | heqx
      · rw [List.filter_cons, if_pos (by simp [hx]),
          List.filter_cons, if_pos (by simp [hlt]),
          List.filter_cons, if_neg (by simp [ne_of_lt hlt])]
        simp only [List.length_cons, ih]
        omega
      · rw [List.filter_cons, if_pos (by simp [hx]),
          List.filter_cons, if_neg (by simp [heqx]),
          List.filter_cons, if_pos (by simp [heqx])]
        simp only [List.length_cons, ih]
        omega
    · have h1 : ¬ key x < q := fun h => hx (le_of_lt h)
      have h2 : ¬ key x = q := fun h => hx (le_of_eq h)
      rw [List.filter_cons, if_neg (by simp [hx]),
        List.filter_cons, if_neg (by simp [h1]),
        List.filter_cons, if_neg (by simp [h2]), ih]

theorem filter_self_of_all {α : Type} {p : α → Bool} :
    ∀ {l : List α}, (∀ a ∈ l, p a = true) → l.filter p = l := by
  intro l
  induction l with
  | nil => intro _; rfl
  | cons x xs ih =>
    intro h
    rw [List.filter_cons, if_pos (h x (List.mem_cons_self x xs)),
      ih (fun a ha => h a (List.mem_cons_of_mem x ha))]


/-- Dropping a single element that — within the part of the list before it —
already has at least `k` elements of key not larger than its own does not
change the first `k` elements of the stable sort. -/
theorem take_ssort_cons_skip {α : Type} {key : α → ℚ} (k : ℕ) (u v : List α)
    (d : α)
    (hk : k ≤ (u.filter (fun y => decide (key y ≤ key d))).length) :
    (ssort key (u ++ d :: v)).take k = (ssort key (u ++ v)).take k := by
  set S := ssort key (u ++ d :: v) with hSdef
  have hSsorted : KSorted key S := ksorted_ssort key _
  set A := S.filter (fun y => decide (key y < key d)) with hAdef
  set C := S.filter (fun y => decide (key d < key y)) with hCdef
  set Eu := u.filter (fun y => decide (key y = key d)) with hEudef
  set Ev := v.filter (fun y => decide (key y = key d)) with hEvdef
  have hB : S.filter (fun y => decide (key y = key d)) = Eu ++ d :: Ev := by
    rw [hSdef, filter_ssort, List.filter_append, List.filter_cons,
      if_pos (by simp), hEudef, hEvdef]
  have hsplit : S = A ++ (Eu ++ d :: Ev) ++ C := by
    have h3 := ksorted_three_split (key d) hSsorted
    rw [hB] at h3
    rw [← hAdef, ← hCdef] at h3
    exact h3
  have hmemA : ∀ a ∈ A, key a < key d := by
    intro a ha
    rw [hAdef] at ha
    simpa using List.of_mem_filter ha
  have hmemC : ∀ a ∈ C, key d < key a := by
    intro a ha
    rw [hCdef] at ha
    simpa using List.of_mem_filter ha
  have hmemEu : ∀ a ∈ Eu, key a = key d := by
    intro a ha
    rw [hEudef] at ha
    simpa using List.of_mem_filter ha
  have hmemEv : ∀ a ∈ Ev, key a = key d := by
    intro a ha
    rw [hEvdef] at ha
    simpa using List.of_mem_filter ha
  have hZsorted : KSorted key (A ++ (Eu ++ Ev) ++ C) := by
    have hsub : (A ++ (Eu ++ Ev) ++ C).Sublist (A ++ (Eu ++ d :: Ev) ++ C) := by
      refine List.Sublist.append (List.Sublist.append (List.Sublist.refl A) ?_)
        (List.Sublist.refl C)
      exact List.Sublist.append (List.Sublist.refl Eu) (List.sublist_cons_self d Ev)
    exact List.Pairwise.sublist hsub (hsplit ▸ hSsorted)
  have hZfilter : ∀ q,
      (A ++ (Eu ++ Ev) ++ C).filter (fun y => decide (key y = q)) =
        (u ++ v).filter (fun y => decide (key y = q)) := by
    intro q
    have hSf : (u ++ d :: v).filter (fun y => decide (key y = q)) =
        (A ++ (Eu ++ d :: Ev) ++ C).filter (fun y => decide (key y = q)) := by
      rw [← hsplit, hSdef, filter_ssort]
    by_cases hq : q = key d
    · subst hq
      have hAq : A.filter (fun y => decide (key y = key d)) = [] :=
        filter_eq_nil_of_forall (fun a ha => by simp [ne_of_lt (hmemA a ha)])
      have hCq : C.filter (fun y => decide (key y = key d)) = [] :=
        filter_eq_nil_of_forall (fun a ha => by simp [ne_of_gt (hmemC a ha)])
      have hEuq : Eu.filter (fun y => decide (key y = key d)) = Eu :=
        filter_self_of_all (fun a ha => by simp [hmemEu a ha])
      have hEvq : Ev.filter (fun y => decide (key y = key d)) = Ev :=
        filter_self_of_all (fun a ha => by simp [hmemEv a ha])
      rw [List.filter_append, List.filter_append, List.filter_append, hAq, hCq,
        hEuq, hEvq, List.filter_append, ← hEudef, ← hEvdef]
      simp
    · have hdq : ¬ (key d = q) := fun h => hq h.symm
      have hEuq : Eu.filter (fun y => decide (key y = q)) = [] :=
        filter_eq_nil_of_forall
          (fun a ha => by simp [hmemEu a ha]; exact hdq)
      have hEvq : Ev.filter (fun y => decide (key y = q)) = [] :=
        filter_eq_nil_of_forall
          (fun a ha => by simp [hmemEv a ha]; exact hdq)
      rw [List.filter_append, List.filter_cons, if_neg (by simp [hdq])] at hSf
      rw [List.filter_append, List.filter_append, List.filter_append, hEuq,
        List.filter_cons, if_neg (by simp [hdq]), hEvq] at hSf
      rw [List.filter_append, List.filter_append, List.filter_append, hEuq,
        hEvq, List.filter_append]
      simpa using hSf.symm
  have hZ : ssort key (u ++ v) = A ++ (Eu ++ Ev) ++ C :=
    ksorted_ext _ _ (ksorted_ssort key _) hZsorted
      (fun q => by rw [filter_ssort]; exact (hZfilter q).symm)
  have hlenA : (u.filter (fun y => decide (key y < key d))).length ≤ A.length := by
    rw [hAdef, hSdef, length_filter_perm _ (perm_ssort key (u ++ d :: v)),
      List.filter_append, List.length_append]
    exact Nat.le_add_right _ _
  have hlen : k ≤ A.length + Eu.length := by
    have hsplitlen := length_filter_le_split key (key d) u
    rw [← hEudef] at hsplitlen
    omega
  have hS2 : S = (A ++ Eu) ++ (d :: Ev ++ C) := by
    rw [hsplit]; simp [List.append_assoc]
  have hZ2 : ssort key (u ++ v) = (A ++ Eu) ++ (Ev ++ C) := by
    rw [hZ]; simp [List.append_assoc]
  have hlen2 : k ≤ (A ++ Eu).length := by
    rw [List.length_append]; exact hlen
  rw [hS2, hZ2, List.take_append_of_le_length hlen2,
    List.take_append_of_le_length hlen2]

theorem take_ssort_drop_tail {α : Type} {key : α → ℚ} (k : ℕ) (a w b' : List α)
    (hb : b'.length = k) :
    ∀ D : List α, (∀ y ∈ D, ∀ x ∈ b', key x ≤ key y) →
      (ssort key (a ++ (b' ++ D) ++ w)).take k =
        (ssort key (a ++ b' ++ w)).take k := by
  intro D
  induction D using List.reverseRecOn with
  | nil => intro _; simp
  | append_singleton D₀ y ih =>
    intro h
    have hy : ∀ x ∈ b', key x ≤ key y := fun x hx => h y (by simp) x hx
    have hrw : a ++ (b' ++ (D₀ ++ [y])) ++ w = (a ++ b' ++ D₀) ++ y :: w := by
      simp [List.append_assoc]
    have hk' : k ≤
        ((a ++ b' ++ D₀).filter (fun z => decide (key z ≤ key y))).length := by
      have hsub : b'.filter (fun z => decide (key z ≤ key y)) = b' :=
        filter_self_of_all (fun x hx => by simp [hy x hx])
      rw [List.filter_append, List.filter_append, hsub, List.length_append,
        List.length_append, hb]
      omega
    calc (ssort key (a ++ (b' ++ (D₀ ++ [y])) ++ w)).take k
        = (ssort key ((a ++ b' ++ D₀) ++ y :: w)).take k := by rw [hrw]
      _ = (ssort key ((a ++ b' ++ D₀) ++ w)).take k :=
          take_ssort_cons_skip k _ _ _ hk'
      _ = (ssort key (a ++ (b' ++ D₀) ++ w)).take k := by
          rw [List.append_assoc a b' D₀]
      _ = (ssort key (a ++ b' ++ w)).take k :=
          ih (fun z hz x hx => h z (by simp [hz]) x hx)

/-- Pre-sorting a middle segment and keeping only its first `k` elements does
not change the first `k` elements after re-sorting the whole list: a
segment's local top-`k` contains every element of it that can reach the
global top-`k`. -/
theorem take_ssort_mid {α : Type} {key : α → ℚ} (k : ℕ) (a s w : List α) :
    (ssort key (a ++ (ssort key s).take k ++ w)).take k =
      (ssort key (a ++ s ++ w)).take k := by
  have hinv : ssort key (a ++ ssort key s ++ w) = ssort key (a ++ s ++ w) :=
    ssort_eq_of_filter_eq (fun q => by
      simp only [List.filter_append, filter_ssort])
  by_cases hlen : (ssort key s).length ≤ k
  · rw [List.take_of_length_le hlen, hinv]
  · push_neg at hlen
    have hb : ((ssort key s).take k).length = k := by
      rw [List.length_take]
      exact min_eq_left (le_of_lt hlen)
    have hsp : List.Pairwise (fun x y => key x ≤ key y) (ssort key s) :=
      ksorted_ssort key s
    have hsp2 : List.Pairwise (fun x y => key x ≤ key y)
        ((ssort key s).take k ++ (ssort key s).drop k) := by
      rw [List.take_append_drop]
      exact hsp
    have hord : ∀ y ∈ (ssort key s).drop k, ∀ x ∈ (ssort key s).take k,
        key x ≤ key y := by
      have := (List.pairwise_append.mp hsp2).2.2
      exact fun y hy x hx => this x hx y hy
    calc (ssort key (a ++ (ssort key s).take k ++ w)).take k
        = (ssort key
            (a ++ ((ssort key s).take k ++ (ssort key s).drop k) ++ w)).take k :=
          (take_ssort_drop_tail k a w _ hb _ hord).symm
      _ = (ssort key (a ++ ssort key s ++ w)).take k := by
          rw [List.take_append_drop]
      _ = (ssort key (a ++ s ++ w)).take k := by rw [hinv]

theorem take_ssort_topk_join_aux {α : Type} (key : α → ℚ) (k : ℕ) :
    ∀ (segs : List (List α)) (a : List α),
      (ssort key (a ++ (segs.map (fun s => (ssort key s).take k)).flatten)).take k =
        (ssort key (a ++ segs.flatten)).take k := by
  intro segs
  induction segs with
  | nil => intro a; rfl
  | cons s rest ih =>
    intro a
    calc (ssort key
          (a ++ ((s :: rest).map (fun t => (ssort key t).take k)).flatten)).take k
        = (ssort key (a ++ (ssort key s).take k ++
            (rest.map (fun t => (ssort key t).take k)).flatten)).take k := by
          simp [List.append_assoc]
      _ = (ssort key (a ++ s ++
            (rest.map (fun t => (ssort key t).take k)).flatten)).take k :=
          take_ssort_mid k a s _
      _ = (ssort key ((a ++ s) ++ rest.flatten)).take k := ih (a ++ s)
      _ = (ssort key (a ++ (s :: rest).flatten)).take k := by
          simp [List.append_assoc]

/-- Top-`k` union correctness: re-sorting the concatenation of each segment's
local stable top-`k` and truncating to `k` yields exactly the stable global
top-`k` of the concatenation of the raw segments. -/
theorem take_ssort_topk_join {α : Type} {key : α → ℚ} (k : ℕ)
    (segs : List (List α)) :
    (ssort key ((segs.map (fun s => (ssort key s).take k)).flatten)).take k =
      (ssort key segs.flatten).take k := by
  have := take_ssort_topk_join_aux key k segs ([] : List α)
  simpa using this

/-- Re-sorting the concatenation of pre-sorted segments gives the same list
as sorting the concatenation of the raw segments (without any truncation). -/
theorem ssort_join_ssort {α : Type} {key : α → ℚ} (segs : List (List α)) :
    ssort key ((segs.map (fun s => ssort key s)).flatten) =
      ssort key segs.flatten := by
  apply ssort_eq_of_filter_eq
  intro q
  induction segs with
  | nil => rfl
  | cons s rest ih =>
    simp only [List.map_cons, List.flatten_cons, List.filter_append, filter_ssort]
    rw [ih]

theorem insertLe_map {α β : Type} {key : α → ℚ} {keyb : β → ℚ} {g : α → β}
    (h : ∀ x, keyb (g x) = key x) (x : α) :
    ∀ l : List α, (insertLe key x l).map g = insertLe keyb (g x) (l.map g) := by
  intro l
  induction l with
  | nil => simp [insertLe]
  | cons y ys ih =>
    by_cases hxy : key x ≤ key y
    · simp [insertLe, hxy, h]
    · have : ¬ keyb (g x) ≤ keyb (g y) := by rw [h, h]; exact hxy
      simp [insertLe, hxy, this, ih]

/-- Sorting commutes with mapping when the target key agrees with the source
key through the map. -/
theorem ssort_map {α β : Type} (key : α → ℚ) (keyb : β → ℚ) (g : α → β)
    (h : ∀ x, keyb (g x) = key x) :
    ∀ l : List α, (ssort key l).map g = ssort keyb (l.map g) := by
  intro l
  induction l with
  | nil => rfl
  | cons x xs ih =>
    simp only [ssort, List.map_cons]
    rw [insertLe_map h, ih]

/-!
The query-intent executor (executor.ts) and the collection readers (data.ts).
-/

/-- `Intent` from types.ts. -/
structure Intent where
  metric : Metric
  collections : List CollectionName
  status : StatusFilter
  breakdown : BreakdownMode
  typeFilter : Option String := none
  locationFilter : Option String := none
  sort : Option SortOrder := none
  limit : Option ℕ := none
deriving Repr

/-- Direction-adjusted sort key: the JS comparator `bValue - aValue`
(descending) is the same stable sort as ascending on the negated key. -/
def sKey : SortOrder → ℚ → ℚ
  | .asc, q => q
  | .desc, q => -q

/-- The JS guard `if (limit) { ... slice/limit ... }`: `0` is falsy, so a zero
limit applies no truncation. -/
def applyJsLimit {α : Type} (lim : Option ℕ) (l : List α) : List α :=
  match lim with
  | some k => if k = 0 then l else l.take k
  | none => l

/-- Helper for `dedupFirst`: keep elements not seen before, in order. -/
def dedupFirstAux : List CollectionName → List CollectionName → List CollectionName
  | _, [] => []
  | seen, c :: rest =>
    if c ∈ seen then dedupFirstAux seen rest
    else c :: dedupFirstAux (c :: seen) rest

/-- `Array.from(new Set(collections))`: deduplication keeping the first
occurrence of each name, in insertion order. -/
def dedupFirst (l : List CollectionName) : List CollectionName :=
  dedupFirstAux [] l

/-- `x ?? fallback` (JS nullish coalescing) on raw values. -/
def nullishDefault (v fallback : RawValue) : RawValue :=
  match v with
  | .missing => fallback
  | _ => v

/-- `x !== undefined ? toNumber(x) : undefined` on raw values. -/
def optToNumber : RawValue → Option ℚ
  | .missing => none
  | v => some (toNumber v)

/-- A raw sports document in the `sports` collection. -/
structure RawSportsDoc where
  code : RawValue := .missing
  location : RawValue := .missing
  name : RawValue := .missing
  type : RawValue := .missing
  status : RawValue := .missing
  teams : RawValue := .missing
  coaches : RawValue := .missing
  playgrounds : RawValue := .missing
  events : RawValue := .missing
  medals : RawValue := .missing
  budget : RawValue := .missing
deriving DecidableEq, Repr

/-- A raw education document in the `education` collection. -/
structure RawEduDoc where
  code : RawValue := .missing
  location : RawValue := .missing
  name : RawValue := .missing
  type : RawValue := .missing
  status : RawValue := .missing
  students : RawValue := .missing
  teachers : RawValue := .missing
  pass_rate : RawValue := .missing
  avg_grade : RawValue := .missing
  dropout_rate : RawValue := .missing
  labs : RawValue := .missing
  library_books : RawValue := .missing
  programs : RawValue := .missing
deriving DecidableEq, Repr

/-- `SportsRecord` from types.ts.  The TS declarations type `status` and
`type` as the unions `Status` and `CampusType`, but `readSports` fills them
with `(raw ?? default) as ...` casts that perform no runtime validation, so
they are modelled as raw values. -/
structure SportsRecord where
  code : ℚ
  location : String
  name : String
  type : RawValue
  status : RawValue
  teams : Option ℚ := none
  coaches : Option ℚ := none
  playgrounds : Option ℚ := none
  events : Option ℚ := none
  medals : Option ℚ := none
  budget : Option ℚ := none
deriving DecidableEq, Repr

/-- `EducationRecord` from types.ts, with the same raw-cast caveat for
`status` and `type` as `SportsRecord`. -/
structure EducationRecord where
  code : ℚ
  location : String
  name : String
  type : RawValue
  status : RawValue
  students : Option ℚ := none
  teachers : Option ℚ := none
  pass_rate : Option ℚ := none
  avg_grade : Option ℚ := none
  dropout_rate : Option ℚ := none
  labs : Option ℚ := none
  library_books : Option ℚ := none
  programs : Option ℚ := none
deriving DecidableEq, Repr

/-- The document store: one list of documents per finance collection, plus
the `sports` and `education` collections. -/
structure Stores where
  finance : CollectionName → List RawDoc
  sports : List RawSportsDoc
  education : List RawEduDoc

/-- `fetchCollections` from data.ts: deduplicate the names, fetch and
normalize each collection, and concatenate in request order. -/
def fetchCollections (store : Stores) (cols : List CollectionName) :
    List CampusRecord :=
  ((dedupFirst cols).map
    (fun c => (store.finance c).map (fun d => mapDocument d c))).flatten

/-- The stored field used by a finance `orderBy` clause; the executor only
ever passes one of the five indexable metrics here. -/
def rawMetricField (m : Metric) (d : RawDoc) : RawValue :=
  match m with
  | .income => d.income
  | .rent => d.rent
  | .salary => d.salary
  | .electricity => d.electricity
  | .misc => d.misc
  | _ => .missing

/-- Model of a server-side finance query (spec §6 `getByQuery`): equality
prefilter, stable ordering on the named numeric field, optional row cap. -/
def serverFinanceQuery (docs : List RawDoc) (fil : RawDoc → Bool) (m : Metric)
    (order : SortOrder) (lim : Option ℕ) : List RawDoc :=
  applyJsLimit lim
    (ssort (fun d => sKey order (toNumber (rawMetricField m d))) (docs.filter fil))

/-- `readByStatusSorted` from data.ts: `where('status','==',status)` +
`orderBy(metric, order)` + optional limit, then normalization. -/
def readByStatusSorted (store : Stores) (c : CollectionName) (st : Status)
    (m : Metric) (order : SortOrder) (lim : Option ℕ) : List CampusRecord :=
  (serverFinanceQuery (store.finance c)
    (fun d => d.status == .str (statusStr st)) m order lim).map
    (fun d => mapDocument d c)

/-- `readByTypeSorted` from data.ts. -/
def readByTypeSorted (store : Stores) (c : CollectionName) (t : String)
    (m : Metric) (order : SortOrder) (lim : Option ℕ) : List CampusRecord :=
  (serverFinanceQuery (store.finance c)
    (fun d => d.type == .str t) m order lim).map
    (fun d => mapDocument d c)

/-- `readByStatusTypeSorted` from data.ts. -/
def readByStatusTypeSorted (store : Stores) (c : CollectionName) (st : Status)
    (t : String) (m : Metric) (order : SortOrder) (lim : Option ℕ) :
    List CampusRecord :=
  (serverFinanceQuery (store.finance c)
    (fun d => d.status == .str (statusStr st) && d.type == .str t)
    m order lim).map (fun d => mapDocument d c)

/-- Options record consumed by `readSports`/`readEducation`. -/
structure DatasetReadOpts where
  status : Option Status := none
  type : Option String := none
  orderField : Option String := none
  orderDir : Option SortOrder := none
  limit : Option ℕ := none

/-- Raw field of a sports document by name, for `orderBy(opts.orderField)`. -/
def sportsFieldRaw (d : RawSportsDoc) (f : String) : RawValue :=
  if f = "teams" then d.teams
  else if f = "coaches" then d.coaches
  else if f = "playgrounds" then d.playgrounds
  else if f = "events" then d.events
  else if f = "medals" then d.medals
  else if f = "budget" then d.budget
  else .missing

/-- Raw field of an education document by name. -/
def eduFieldRaw (d : RawEduDoc) (f : String) : RawValue :=
  if f = "students" then d.students
  else if f = "teachers" then d.teachers
  else if f = "pass_rate" then d.pass_rate
  else if f = "avg_grade" then d.avg_grade
  else if f = "dropout_rate" then d.dropout_rate
  else if f = "labs" then d.labs
  else if f = "library_books" then d.library_books
  else if f = "programs" then d.programs
  else .missing

/-- Normalization of one sports document in `readSports`.  Note the
`?? "active"` / `?? "school"` defaults and the absence of any status
normalization. -/
def sportsDocToRecord (d : RawSportsDoc) : SportsRecord :=
  { code := toNumber d.code
    location := rawToStringJs (nullishDefault d.location (.str ""))
    name := rawToStringJs (nullishDefault d.name (.str ""))
    type := nullishDefault d.type (.str "school")
    status := nullishDefault d.status (.str "active")
    teams := optToNumber d.teams
    coaches := optToNumber d.coaches
    playgrounds := optToNumber d.playgrounds
    events := optToNumber d.events
    medals := optToNumber d.medals
    budget := optToNumber d.budget }

/-- Normalization of one education document in `readEducation`. -/
def eduDocToRecord (d : RawEduDoc) : EducationRecord :=
  { code := toNumber d.code
    location := rawToStringJs (nullishDefault d.location (.str ""))
    name := rawToStringJs (nullishDefault d.name (.str ""))
    type := nullishDefault d.type (.str "school")
    status := nullishDefault d.status (.str "active")
    students := optToNumber d.students
    teachers := optToNumber d.teachers
    pass_rate := optToNumber d.pass_rate
    avg_grade := optToNumber d.avg_grade
    dropout_rate := optToNumber d.dropout_rate
    labs := optToNumber d.labs
    library_books := optToNumber d.library_books
    programs := optToNumber d.programs }

/-- `readSports` from data.ts: optional `where` equality terms on the raw
`status`/`type` fields, optional `orderBy` (direction defaulting to `desc`),
optional (truthy) limit, then normalization. -/
def readSports (docs : List RawSportsDoc) (opts : DatasetReadOpts) :
    List SportsRecord :=
  let l1 := match opts.status with
    | some st => docs.filter (fun d => d.status == .str (statusStr st))
    | none => docs
  let l2 := match opts.type with
    | some t => l1.filter (fun d => d.type == .str t)
    | none => l1
  let l3 := match opts.orderField with
    | some f =>
      ssort (fun d => sKey (opts.orderDir.getD .desc)
        (toNumber (sportsFieldRaw d f))) l2
    | none => l2
  (applyJsLimit opts.limit l3).map sportsDocToRecord

/-- `readEducation` from data.ts. -/
def readEducation (docs : List RawEduDoc) (opts : DatasetReadOpts) :
    List EducationRecord :=
  let l1 := match opts.status with
    | some st => docs.filter (fun d => d.status == .str (statusStr st))
    | none => docs
  let l2 := match opts.type with
    | some t => l1.filter (fun d => d.type == .str t)
    | none => l1
  let l3 := match opts.orderField with
    | some f =>
      ssort (fun d => sKey (opts.orderDir.getD .desc)
        (toNumber (eduFieldRaw d f))) l2
    | none => l2
  (applyJsLimit opts.limit l3).map eduDocToRecord

/-- `getValue` inside `sortRecordsClientSide` (executor.ts): derives
`profit`/`expenditure` on the fly, reads stored finance fields, and returns
0 for any other metric. -/
def getValue (m : Metric) (r : CampusRecord) : ℚ :=
  match m with
  | .profit => profitOf r
  | .expenditure => expenditureOf r
  | .income => r.income
  | .rent => r.rent
  | .salary => r.salary
  | .electricity => r.electricity
  | .misc => r.misc
  | .staff => r.staff
  | _ => 0

/-- `sortRecordsClientSide` from executor.ts (stable sort, ES2019). -/
def sortRecordsClientSide (records : List CampusRecord) (m : Metric)
    (order : SortOrder) : List CampusRecord :=
  ssort (fun r => sKey order (getValue m r)) records

/-- The `indexedMetrics` allow-list in `canUseIndexes` (executor.ts). -/
def isIndexableMetric : Metric → Bool
  | .income | .rent | .salary | .electricity | .misc => true
  | _ => false

/-- `canUseIndexes` from executor.ts. -/
def canUseIndexes (intent : Intent) : Bool :=
  isIndexableMetric intent.metric && intent.sort.isSome

/-- `getDatasetType` from executor.ts. -/
inductive DatasetType
  | finance
  | sports
  | education
deriving DecidableEq, Repr

/-- The fixed metric → dataset routing table. -/
def getDatasetType (m : Metric) : DatasetType :=
  match m with
  | .medals | .coaches | .events | .teams | .sports_budget => .sports
  | .students | .teachers | .pass_rate | .avg_grade | .dropout_rate => .education
  | _ => .finance

/-- `ExecutionResult` from executor.ts. -/
structure ExecutionResult where
  records : List CampusRecord
  docsRead : ℕ
  usedIndexes : Bool
  executionPath : String
deriving DecidableEq, Repr

/-- The status value passed to a server query after the `status as
'active' | 'inactive'` cast (only reached when the filter is not `any`). -/
def statusFilterAsStatus : StatusFilter → Status
  | .active => .active
  | .inactive => .inactive
  | .any => .active

/-- Runtime string of a status filter. -/
def statusFilterStr : StatusFilter → String
  | .active => "active"
  | .inactive => "inactive"
  | .any => "any"

/-- The per-collection query of the indexed finance path (executor.ts lines
63–105): pick the query shape from the present filters; with no filters,
fetch the whole collection, sort client-side, and apply the limit. -/
def indexedCollectionQuery (store : Stores) (intent : Intent)
    (order : SortOrder) (c : CollectionName) : List CampusRecord :=
  match intent.status, intent.typeFilter with
  | .any, some t => readByTypeSorted store c t intent.metric order intent.limit
  | .any, none =>
    applyJsLimit intent.limit
      (sortRecordsClientSide (fetchCollections store [c]) intent.metric order)
  | st, some t =>
    readByStatusTypeSorted store c (statusFilterAsStatus st) t intent.metric
      order intent.limit
  | st, none =>
    readByStatusSorted store c (statusFilterAsStatus st) intent.metric order
      intent.limit

/-- Path 1 of `execute` (executor.ts): one indexed query per target
collection, then — when more than one collection was targeted — a re-sort of
the union and a re-limit. -/
def indexedFinancePath (store : Stores) (intent : Intent) : ExecutionResult :=
  let order := intent.sort.getD .asc
  let allRecords :=
    (intent.collections.map (indexedCollectionQuery store intent order)).flatten
  let allRecords :=
    if intent.collections.length > 1 && intent.sort.isSome then
      applyJsLimit intent.limit
        (sortRecordsClientSide allRecords intent.metric order)
    else allRecords
  { records := allRecords
    docsRead := allRecords.length
    usedIndexes := true
    executionPath := "firestore-indexes" }

/-- Path 2 of `execute` (executor.ts): fetch everything, then filter by
status, type (case-insensitive), location (case-insensitive substring),
sort, and limit — in that order. -/
def clientSidePath (store : Stores) (intent : Intent) : ExecutionResult :=
  let records0 := fetchCollections store intent.collections
  let docsRead := records0.length
  let r1 := match intent.status with
    | .any => records0
    | st => records0.filter
        (fun r => campusStatusStr r.status == statusFilterStr st)
  let r2 := match intent.typeFilter with
    | some t => r1.filter (fun r =>
        match r.type with
        | some s => jsToLower s == jsToLower t
        | none => false)
    | none => r1
  let r3 := match intent.locationFilter with
    | some loc => r2.filter (fun r =>
        match r.location with
        | some s => strIncludes (jsToLower s) (jsToLower loc)
        | none => false)
    | none => r2
  let r4 := match intent.sort with
    | some o => sortRecordsClientSide r3 intent.metric o
    | none => r3
  { records := applyJsLimit intent.limit r4
    docsRead := docsRead
    usedIndexes := false
    executionPath := "client-side" }

/-- The conversion of a sports record to the generic record shape in
`executeSportsQuery` (an `any`-cast object in the source).  Note the exact,
case-sensitive equality used to map `status` onto the three-valued union. -/
def sportsToCampus (r : SportsRecord) : CampusRecord :=
  { id := toString r.code
    collectionTag := "sports"
    datasetTag := some "sports"
    code := toString r.code
    name := some r.name
    location := some r.location
    status :=
      if r.status == .str "active" then .active
      else if r.status == .str "inactive" then .inactive
      else .unknown
    type := rawAsOptString r.type
    rent := 0, salary := 0, electricity := 0, misc := 0, income := 0
    staff := 0, expenditure := 0, profit := 0
    teams := r.teams, coaches := r.coaches, playgrounds := r.playgrounds
    events := r.events, medals := r.medals, budget := r.budget }

/-- The analogous conversion in `executeEducationQuery`. -/
def eduToCampus (r : EducationRecord) : CampusRecord :=
  { id := toString r.code
    collectionTag := "education"
    datasetTag := some "education"
    code := toString r.code
    name := some r.name
    location := some r.location
    status :=
      if r.status == .str "active" then .active
      else if r.status == .str "inactive" then .inactive
      else .unknown
    type := rawAsOptString r.type
    rent := 0, salary := 0, electricity := 0, misc := 0, income := 0
    staff := 0, expenditure := 0, profit := 0
    students := r.students, teachers := r.teachers, pass_rate := r.pass_rate
    avg_grade := r.avg_grade, dropout_rate := r.dropout_rate, labs := r.labs
    library_books := r.library_books, programs := r.programs }

/-- `executeSportsQuery` from executor.ts: dataset read with the requested
equality/order/limit, then the in-memory location substring filter, then
conversion.  `docsRead` is the record count after the location filter. -/
def executeSportsQuery (store : Stores) (intent : Intent) : ExecutionResult :=
  let fieldName :=
    if intent.metric = Metric.sports_budget then "budget"
    else metricStr intent.metric
  let recs := readSports store.sports
    { status := match intent.status with
        | .any => none
        | .active => some .active
        | .inactive => some .inactive
      type := intent.typeFilter
      orderField := if intent.sort.isSome then some fieldName else none
      orderDir := intent.sort
      limit := intent.limit }
  let recs : List SportsRecord := match intent.locationFilter with
    | some loc => recs.filter
        (fun r => strIncludes (jsToLower r.location) (jsToLower loc))
    | none => recs
  { records := recs.map sportsToCampus
    docsRead := recs.length
    usedIndexes := intent.sort.isSome
    executionPath := "sports-collection" }

/-- `executeEducationQuery` from executor.ts. -/
def executeEducationQuery (store : Stores) (intent : Intent) :
    ExecutionResult :=
  let recs := readEducation store.education
    { status := match intent.status with
        | .any => none
        | .active => some .active
        | .inactive => some .inactive
      type := intent.typeFilter
      orderField := if intent.sort.isSome then some (metricStr intent.metric)
        else none
      orderDir := intent.sort
      limit := intent.limit }
  let recs : List EducationRecord := match intent.locationFilter with
    | some loc => recs.filter
        (fun r => strIncludes (jsToLower r.location) (jsToLower loc))
    | none => recs
  { records := recs.map eduToCampus
    docsRead := recs.length
    usedIndexes := intent.sort.isSome
    executionPath := "education-collection" }

/-- `execute` from executor.ts: dataset routing, then indexed-eligibility,
then one of the three retrieval pipelines. -/
def execute (store : Stores) (intent : Intent) : ExecutionResult :=
  match getDatasetType intent.metric with
  | .sports => executeSportsQuery store intent
  | .education => executeEducationQuery store intent
  | .finance =>
    if canUseIndexes intent then indexedFinancePath store intent
    else clientSidePath store intent

/-- Whether the retrieval issued to the store by `execute` includes a
server-side ordered (`orderBy`) query: on the finance indexed path this
happens exactly when at least one collection is queried through one of the
three `readBy...Sorted` readers (i.e. some status/type filter is present);
the no-filter sub-branch fetches whole collections unordered.  The dataset
paths push an `orderBy` term iff a sort is requested. -/
def serverOrderedQueryUsed (intent : Intent) : Bool :=
  match getDatasetType intent.metric with
  | .sports => intent.sort.isSome
  | .education => intent.sort.isSome
  | .finance =>
    canUseIndexes intent && !intent.collections.isEmpty &&
      (!(intent.status == StatusFilter.any) || intent.typeFilter.isSome)

/-!
The aggregator (data.ts) and the two location merges (cross-collection.ts
and merge.ts).
-/

/-- The `metricExtractor` lookup table from data.ts: reads the record's
stored/derived field, defaulting optional dataset fields to 0 (`?? 0`). -/
def metricExtractor (m : Metric) (r : CampusRecord) : ℚ :=
  match m with
  | .income => r.income
  | .profit => r.profit
  | .expenditure => r.expenditure
  | .salary => r.salary
  | .rent => r.rent
  | .electricity => r.electricity
  | .misc => r.misc
  | .staff => r.staff
  | .medals => r.medals.getD 0
  | .coaches => r.coaches.getD 0
  | .events => r.events.getD 0
  | .teams => r.teams.getD 0
  | .sports_budget => r.budget.getD 0
  | .students => r.students.getD 0
  | .teachers => r.teachers.getD 0
  | .pass_rate => r.pass_rate.getD 0
  | .avg_grade => r.avg_grade.getD 0
  | .dropout_rate => r.dropout_rate.getD 0

/-- `filterByStatus` from data.ts. -/
def filterByStatus (records : List CampusRecord) (status : StatusFilter) :
    List CampusRecord :=
  match status with
  | .any => records
  | st => records.filter
      (fun r => campusStatusStr r.status == statusFilterStr st)

/-- `AggregateBreakdown` from types.ts. -/
structure AggregateBreakdown where
  collection : CollectionName
  value : ℚ
deriving DecidableEq, Repr

/-- `AggregateResult` from types.ts. -/
structure AggregateResult where
  total : ℚ
  breakdown : List AggregateBreakdown
  docsRead : ℕ
  filteredCount : ℕ
  statusApplied : StatusFilter
deriving DecidableEq, Repr

/-- `aggregateByIntent` from data.ts: status filter, single-pass total, and
per-collection subtotals (one per intent collection, in intent order) when
breakdown mode is `collection`. -/
def aggregateByIntent (records : List CampusRecord) (intent : Intent) :
    AggregateResult :=
  let docsRead := records.length
  let filtered := filterByStatus records intent.status
  let total :=
    filtered.foldl (fun sum r => sum + metricExtractor intent.metric r) 0
  let breakdown : List AggregateBreakdown :=
    match intent.breakdown with
    | .collection =>
      intent.collections.map (fun c =>
        { collection := c
          value :=
            (filtered.filter
              (fun r => r.collectionTag == collectionNameStr c)).foldl
              (fun sum r => sum + metricExtractor intent.metric r) 0 })
    | .none => []
  { total := total
    breakdown := breakdown
    docsRead := docsRead
    filteredCount := filtered.length
    statusApplied := intent.status }

/-- `CrossCollectionIntent` from cross-collection.ts. -/
structure CrossCollectionIntent where
  metrics : List Metric
  locationFilter : Option String := none
  status : Option StatusFilter := none
  typeFilter : Option String := none
deriving Repr

/-- The merged record built by `executeCrossCollectionQuery` (an `any`-keyed
object at runtime).  `status` and `type` keep whatever loosely-typed value
the first record for the location carried (`record.status || 'unknown'`). -/
structure MergedRecord where
  code : String
  name : Option String := none
  location : String
  status : RawValue
  type : RawValue
  income : Option ℚ := none
  rent : Option ℚ := none
  salary : Option ℚ := none
  electricity : Option ℚ := none
  misc : Option ℚ := none
  staff : Option ℚ := none
  expenditure : Option ℚ := none
  profit : Option ℚ := none
  medals : Option ℚ := none
  coaches : Option ℚ := none
  events : Option ℚ := none
  teams : Option ℚ := none
  sports_budget : Option ℚ := none
  students : Option ℚ := none
  teachers : Option ℚ := none
  pass_rate : Option ℚ := none
  avg_grade : Option ℚ := none
  dropout_rate : Option ℚ := none
deriving DecidableEq, Repr

/-- JS `x || 'unknown'` on the loosely-typed status/type values: falsy values
(empty string, 0, absent) are replaced by `'unknown'`. -/
def orUnknown (v : RawValue) : RawValue :=
  match v with
  | .str "" => .str "unknown"
  | .num 0 => .str "unknown"
  | .missing => .str "unknown"
  | v => v

/-- Insert-or-update on the insertion-ordered location map (`Map` keyed by
location in the source): if a row with the key exists, update it in place;
otherwise append the freshly initialized row and update it. -/
def upsertMerged (m : List MergedRecord) (loc : String) (init : MergedRecord)
    (upd : MergedRecord → MergedRecord) : List MergedRecord :=
  if m.any (fun row => row.location == loc) then
    m.map (fun row => if row.location == loc then upd row else row)
  else
    m ++ [upd init]

/-- One step of the finance pass of the cross-collection merge: records with
a falsy `location` (absent or empty) are skipped (`if (!location) return`). -/
def mergeFinanceStep (m : List MergedRecord) (r : CampusRecord) :
    List MergedRecord :=
  match r.location with
  | none => m
  | some loc =>
    if loc = "" then m
    else
      upsertMerged m loc
        { code := r.code
          name := r.name
          location := loc
          status := orUnknown (.str (campusStatusStr r.status))
          type := orUnknown (match r.type with
            | some s => .str s
            | none => .missing) }
        (fun row => { row with
          income := some r.income, rent := some r.rent
          salary := some r.salary, electricity := some r.electricity
          misc := some r.misc, staff := some r.staff
          expenditure := some r.expenditure, profit := some r.profit })

/-- One step of the sports pass of the cross-collection merge. -/
def mergeSportsStep (m : List MergedRecord) (r : SportsRecord) :
    List MergedRecord :=
  if r.location = "" then m
  else
    upsertMerged m r.location
      { code := toString r.code
        name := some r.name
        location := r.location
        status := orUnknown r.status
        type := orUnknown r.type }
      (fun row => { row with
        medals := r.medals, coaches := r.coaches, events := r.events
        teams := r.teams, sports_budget := r.budget })

/-- One step of the education pass of the cross-collection merge. -/
def mergeEduStep (m : List MergedRecord) (r : EducationRecord) :
    List MergedRecord :=
  if r.location = "" then m
  else
    upsertMerged m r.location
      { code := toString r.code
        name := some r.name
        location := r.location
        status := orUnknown r.status
        type := orUnknown r.type }
      (fun row => { row with
        students := r.students, teachers := r.teachers
        pass_rate := r.pass_rate, avg_grade := r.avg_grade
        dropout_rate := r.dropout_rate })

/-- `getMetricDataset` from cross-collection.ts (same table as the
executor's `getDatasetType`). -/
def getMetricDataset (m : Metric) : DatasetType :=
  getDatasetType m

/-- The finance records fetched by the cross-collection query (all three
fixed collections) when some requested metric is a finance metric. -/
def crossFinanceRecs (store : Stores) (intent : CrossCollectionIntent) :
    List CampusRecord :=
  if intent.metrics.any (fun m => getMetricDataset m == .finance) then
    fetchCollections store [.college1, .school1, .school2]
  else []

/-- The sports records fetched by the cross-collection query, with the
status/type equality filters pushed to the store. -/
def crossSportsRecs (store : Stores) (intent : CrossCollectionIntent) :
    List SportsRecord :=
  if intent.metrics.any (fun m => getMetricDataset m == .sports) then
    readSports store.sports
      { status := match intent.status with
          | some .active => some .active
          | some .inactive => some .inactive
          | _ => none
        type := intent.typeFilter }
  else []

/-- The education records fetched by the cross-collection query. -/
def crossEduRecs (store : Stores) (intent : CrossCollectionIntent) :
    List EducationRecord :=
  if intent.metrics.any (fun m => getMetricDataset m == .education) then
    readEducation store.education
      { status := match intent.status with
          | some .active => some .active
          | some .inactive => some .inactive
          | _ => none
        type := intent.typeFilter }
  else []

/-- The merged-by-location rows: the fetched result arrays are processed in
finance, sports, education order. -/
def crossMergeRows (store : Stores) (intent : CrossCollectionIntent) :
    List MergedRecord :=
  ((crossEduRecs store intent).foldl mergeEduStep
    ((crossSportsRecs store intent).foldl mergeSportsStep
      ((crossFinanceRecs store intent).foldl mergeFinanceStep [])))

/-- Post-merge location-substring filter of the cross-collection query. -/
def crossFilterLocation (intent : CrossCollectionIntent)
    (rows : List MergedRecord) : List MergedRecord :=
  match intent.locationFilter with
  | some loc => rows.filter
      (fun row => strIncludes (jsToLower row.location) (jsToLower loc))
  | none => rows

/-- Post-merge status filter of the cross-collection query
(`if (intent.status && intent.status !== 'any')`). -/
def crossFilterStatus (intent : CrossCollectionIntent)
    (rows : List MergedRecord) : List MergedRecord :=
  match intent.status with
  | some .active => rows.filter
      (fun row => row.status == .str (statusFilterStr .active))
  | some .inactive => rows.filter
      (fun row => row.status == .str (statusFilterStr .inactive))
  | _ => rows

/-- Post-merge case-insensitive type filter of the cross-collection query. -/
def crossFilterType (intent : CrossCollectionIntent)
    (rows : List MergedRecord) : List MergedRecord :=
  match intent.typeFilter with
  | some t => rows.filter (fun row =>
      match row.type with
      | .str s => jsToLower s == jsToLower t
      | _ => false)
  | none => rows

/-- The post-merge filters of the cross-collection query: location
substring, then status equality, then type (case-insensitive), applied to
whole merged rows. -/
def crossApplyFilters (intent : CrossCollectionIntent)
    (rows : List MergedRecord) : List MergedRecord :=
  crossFilterType intent (crossFilterStatus intent (crossFilterLocation intent rows))

/-- `executeCrossCollectionQuery` from cross-collection.ts: fetch the needed
datasets, merge by location, filter the merged rows; `docsRead` (the second
component) is the total number of fetched records, before merging and
filtering. -/
def executeCrossCollectionQuery (store : Stores)
    (intent : CrossCollectionIntent) : List MergedRecord × ℕ :=
  (crossApplyFilters intent (crossMergeRows store intent),
    (crossFinanceRecs store intent).length +
      (crossSportsRecs store intent).length +
      (crossEduRecs store intent).length)

/-- `MergedByLocation` from merge.ts. -/
structure MergedByLocation where
  location : String
  finance : List CampusRecord := []
  sports : Option SportsRecord := none
  education : Option EducationRecord := none
deriving DecidableEq, Repr

/-- Insert-or-update for the merge.ts location map (`getOrCreate`). -/
def upsertRow (m : List MergedByLocation) (loc : String)
    (upd : MergedByLocation → MergedByLocation) : List MergedByLocation :=
  if m.any (fun row => row.location == loc) then
    m.map (fun row => if row.location == loc then upd row else row)
  else
    m ++ [upd { location := loc, finance := [] }]

/-- The key used by merge.ts: `String(record.location ?? "")` — absent
locations map to the empty string. -/
def finLocKey (r : CampusRecord) : String :=
  match r.location with
  | some s => s
  | none => ""

/-- `mergeByLocation` from merge.ts: group all finance records by location
key (appending), then attach at most one sports and one education record
per location (last write wins). -/
def mergeByLocation (finance : List CampusRecord) (sports : List SportsRecord)
    (education : List EducationRecord) : List MergedByLocation :=
  let m1 := finance.foldl
    (fun m f => upsertRow m (finLocKey f)
      (fun row => { row with finance := row.finance ++ [f] })) []
  let m2 := sports.foldl
    (fun m s => upsertRow m s.location (fun row => { row with sports := some s }))
    m1
  let m3 := education.foldl
    (fun m e => upsertRow m e.location
      (fun row => { row with education := some e })) m2
  m3

/-!
Helper lemmas about the executor pipelines.
-/

theorem applyJsLimit_none {α : Type} (l : List α) :
    applyJsLimit none l = l := rfl

theorem applyJsLimit_zero {α : Type} (l : List α) :
    applyJsLimit (some 0) l = l := rfl

theorem applyJsLimit_pos {α : Type} (k : ℕ) (hk : k ≠ 0) (l : List α) :
    applyJsLimit (some k) l = l.take k := by
  simp [applyJsLimit, hk]

theorem applyJsLimit_map {α β : Type} (f : α → β) (lim : Option ℕ)
    (l : List α) : (applyJsLimit lim l).map f = applyJsLimit lim (l.map f) := by
  match lim with
  | none => rfl
  | some k =>
    by_cases hk : k = 0
    · subst hk; rfl
    · simp [applyJsLimit, hk, List.map_take]

theorem dedupFirstAux_eq_of_nodup :
    ∀ (l seen : List CollectionName), l.Nodup → (∀ c ∈ l, c ∉ seen) →
      dedupFirstAux seen l = l := by
  intro l
  induction l with
  | nil => intro seen _ _; rfl
  | cons c rest ih =>
    intro seen h hseen
    rcases List.nodup_cons.mp h with ⟨hc, hrest⟩
    rw [dedupFirstAux, if_neg (hseen c (List.mem_cons_self c rest))]
    rw [ih (c :: seen) hrest (fun x hx => by
      intro hmem
      rcases List.mem_cons.mp hmem with rfl | hmem'
      · exact hc hx
      · exact hseen x (List.mem_cons_of_mem c hx) hmem')]

theorem dedupFirst_eq_of_nodup :
    ∀ l : List CollectionName, l.Nodup → dedupFirst l = l := by
  intro l h
  exact dedupFirstAux_eq_of_nodup l [] h (fun c _ => List.not_mem_nil c)

theorem getValue_mapDocument (m : Metric) (hm : isIndexableMetric m = true)
    (d : RawDoc) (c : CollectionName) :
    getValue m (mapDocument d c) = toNumber (rawMetricField m d) := by
  cases m <;> simp_all [isIndexableMetric, getValue, mapDocument, rawMetricField]

/-- The set of records matching a given indexed-path per-collection query,
before sorting and limiting: the collection's documents surviving the
branch's equality filters, normalized. -/
def indexedCollectionMatches (store : Stores) (intent : Intent)
    (c : CollectionName) : List CampusRecord :=
  match intent.status, intent.typeFilter with
  | .any, some t =>
    ((store.finance c).filter (fun d => d.type == .str t)).map
      (fun d => mapDocument d c)
  | .any, none => fetchCollections store [c]
  | st, some t =>
    ((store.finance c).filter (fun d =>
      d.status == .str (statusStr (statusFilterAsStatus st)) &&
        d.type == .str t)).map (fun d => mapDocument d c)
  | st, none =>
    ((store.finance c).filter (fun d =>
      d.status == .str (statusStr (statusFilterAsStatus st)))).map
      (fun d => mapDocument d c)

/-- Every indexed-path per-collection query is: stable-sort the matching
records on the direction-adjusted metric key, then apply the (truthy)
limit. -/
theorem indexedCollectionQuery_eq (store : Stores) (intent : Intent)
    (ord : SortOrder) (c : CollectionName)
    (hm : isIndexableMetric intent.metric = true) :
    indexedCollectionQuery store intent ord c =
      applyJsLimit intent.limit
        (ssort (fun r => sKey ord (getValue intent.metric r))
          (indexedCollectionMatches store intent c)) := by
  have hkey : ∀ d : RawDoc,
      (fun r => sKey ord (getValue intent.metric r)) (mapDocument d c) =
        (fun e => sKey ord (toNumber (rawMetricField intent.metric e))) d := by
    intro d; simp [getValue_mapDocument intent.metric hm]
  have hcomm := ssort_map
    (fun e => sKey ord (toNumber (rawMetricField intent.metric e)))
    (fun r => sKey ord (getValue intent.metric r))
    (fun d => mapDocument d c) hkey
  rcases hst : intent.status with _ | _ | _ <;>
    rcases htf : intent.typeFilter with _ | t <;>
      simp only [indexedCollectionQuery, indexedCollectionMatches, hst, htf,
        readByTypeSorted, readByStatusSorted, readByStatusTypeSorted,
        serverFinanceQuery, sortRecordsClientSide, applyJsLimit_map] <;>
      try rw [hcomm]


/-- Normal form of the indexed finance path: its result is always the stable
sort of all per-collection matching records on the direction-adjusted metric
key, truncated by the (truthy) limit — whether one or many collections are
targeted, and with or without a limit.  This is the content of the
re-sort-and-re-limit step: each collection's local top-`k` feeds the stable
global top-`k`. -/
theorem indexedFinancePath_records_eq (store : Stores) (intent : Intent)
    (ord : SortOrder) (hm : isIndexableMetric intent.metric = true)
    (hsort : intent.sort = some ord) :
    (indexedFinancePath store intent).records =
      applyJsLimit intent.limit
        (ssort (fun r => sKey ord (getValue intent.metric r))
          ((intent.collections.map (indexedCollectionMatches store intent)).flatten)) := by
  have hicq : ∀ c ∈ intent.collections,
      indexedCollectionQuery store intent ord c =
        applyJsLimit intent.limit
          (ssort (fun r => sKey ord (getValue intent.metric r))
            (indexedCollectionMatches store intent c)) := by
    intro c _
    exact indexedCollectionQuery_eq store intent ord c hm
  have hmapeq :
      intent.collections.map (indexedCollectionQuery store intent ord) =
        intent.collections.map (fun c =>
          applyJsLimit intent.limit
            (ssort (fun r => sKey ord (getValue intent.metric r))
              (indexedCollectionMatches store intent c))) :=
    List.map_congr_left hicq
  simp only [indexedFinancePath, hsort, Option.getD_some, Option.isSome_some,
    sortRecordsClientSide, hmapeq]
  split
  · -- more than one collection: the union is re-sorted and re-limited
    rcases hlim : intent.limit with _ | k
    · simp only [applyJsLimit_none]
      have hmm : intent.collections.map (fun c =>
          ssort (fun r => sKey ord (getValue intent.metric r))
            (indexedCollectionMatches store intent c)) =
          (intent.collections.map (indexedCollectionMatches store intent)).map
            (fun s => ssort (fun r => sKey ord (getValue intent.metric r)) s) := by
        rw [List.map_map]; rfl
      rw [hmm, ssort_join_ssort]
    · by_cases hk : k = 0
      · subst hk
        simp only [applyJsLimit_zero]
        have hmm : intent.collections.map (fun c =>
            ssort (fun r => sKey ord (getValue intent.metric r))
              (indexedCollectionMatches store intent c)) =
            (intent.collections.map (indexedCollectionMatches store intent)).map
              (fun s => ssort (fun r => sKey ord (getValue intent.metric r)) s) := by
          rw [List.map_map]; rfl
        rw [hmm, ssort_join_ssort]
      · simp only [applyJsLimit_pos k hk]
        have hmm : intent.collections.map (fun c =>
            (ssort (fun r => sKey ord (getValue intent.metric r))
              (indexedCollectionMatches store intent c)).take k) =
            (intent.collections.map (indexedCollectionMatches store intent)).map
              (fun s =>
                (ssort (fun r => sKey ord (getValue intent.metric r)) s).take k) := by
          rw [List.map_map]; rfl
        rw [hmm, take_ssort_topk_join]
  · -- zero or one collection: the per-collection result is returned as-is
    rename_i hcond
    have hlen : intent.collections.length ≤ 1 := by
      by_contra hgt
      push_neg at hgt
      simp [hgt] at hcond
    rcases hcols : intent.collections with _ | ⟨c, rest⟩
    · simp [applyJsLimit, ssort]
      rcases intent.limit with _ | k <;> simp [ssort, applyJsLimit]
    · rcases rest with _ | ⟨c2, rest2⟩
      · simp
      · exfalso
        rw [hcols] at hlen
        simp at hlen

theorem mapDocument_status (d : RawDoc) (c : CollectionName) :
    (mapDocument d c).status = normalizeStatus d.status := rfl

theorem mapDocument_type (d : RawDoc) (c : CollectionName) :
    (mapDocument d c).type = rawAsOptString d.type := rfl

theorem fetchCollections_single (store : Stores) (c : CollectionName) :
    fetchCollections store [c] =
      (store.finance c).map (fun d => mapDocument d c) := by
  simp [fetchCollections, dedupFirst, dedupFirstAux]

/-- On documents whose stored status is exactly `"active"` or `"inactive"`,
the client-side status filter (on the normalized status) agrees with the
server-side raw equality filter. -/
theorem statusPred_eq (st : StatusFilter) (hst : st ≠ .any) (d : RawDoc)
    (c : CollectionName)
    (hd : d.status = .str "active" ∨ d.status = .str "inactive") :
    (campusStatusStr (mapDocument d c).status == statusFilterStr st) =
      (d.status == RawValue.str (statusStr (statusFilterAsStatus st))) := by
  rw [mapDocument_status]
  cases st with
  | any => exact absurd rfl hst
  | active => rcases hd with h | h <;> rw [h] <;> decide
  | inactive => rcases hd with h | h <;> rw [h] <;> decide

/-- On documents whose stored type string (and the filter string) are fixed
points of lowercasing, the client-side case-insensitive type filter agrees
with the server-side raw equality filter. -/
theorem typePred_eq (t : String) (ht : jsToLower t = t) (d : RawDoc)
    (c : CollectionName)
    (hs : ∀ s : String, d.type = .str s → jsToLower s = s) :
    ((match (mapDocument d c).type with
      | some s => jsToLower s == jsToLower t
      | none => false) : Bool) = (d.type == RawValue.str t) := by
  rw [mapDocument_type]
  rcases hdt : d.type with q | s | _ | _
  · simp [rawAsOptString]
  · simp only [rawAsOptString]
    rw [hs s hdt, ht]
    by_cases h : s = t <;> simp [h]
  · simp [rawAsOptString]
  · simp [rawAsOptString]

/-- Under canonical data hypotheses (no status-casing or type-casing
mismatches between the stored fields and the filters, no location filter, no
duplicated collection, a defined sort), the client-side path also computes
the limit-truncated stable sort of all matching records. -/
theorem clientSidePath_records_eq (store : Stores) (intent : Intent)
    (ord : SortOrder) (hsort : intent.sort = some ord)
    (hloc : intent.locationFilter = none)
    (hnodup : intent.collections.Nodup)
    (hstatus : ∀ c ∈ intent.collections, ∀ d ∈ store.finance c,
      d.status = .str "active" ∨ d.status = .str "inactive")
    (htype : ∀ t, intent.typeFilter = some t → jsToLower t = t ∧
      ∀ c ∈ intent.collections, ∀ d ∈ store.finance c, ∀ s : String,
        d.type = .str s → jsToLower s = s) :
    (clientSidePath store intent).records =
      applyJsLimit intent.limit
        (ssort (fun r => sKey ord (getValue intent.metric r))
          ((intent.collections.map (indexedCollectionMatches store intent)).flatten)) := by
  have hfetch : fetchCollections store intent.collections =
      (intent.collections.map
        (fun c => (store.finance c).map (fun d => mapDocument d c))).flatten := by
    rw [fetchCollections, dedupFirst_eq_of_nodup _ hnodup]
  rcases hst : intent.status with _ | _ | _ <;>
    rcases htf : intent.typeFilter with _ | t <;>
      simp only [clientSidePath, hloc, hsort, hst, htf, sortRecordsClientSide] <;>
      congr 1 <;> congr 1
  case active.none =>
    rw [hfetch, List.filter_flatten, List.map_map]
    refine congrArg List.flatten (List.map_congr_left (fun c hc => ?_))
    simp only [Function.comp]
    rw [List.filter_map]
    simp only [indexedCollectionMatches, hst, htf]
    refine congrArg (List.map _) (List.filter_congr (fun d hd => ?_))
    exact statusPred_eq .active (by simp) d c (hstatus c hc d hd)
  case active.some =>
    rw [hfetch, List.filter_flatten, List.map_map, List.filter_flatten,
      List.map_map]
    refine congrArg List.flatten (List.map_congr_left (fun c hc => ?_))
    simp only [Function.comp]
    rw [List.filter_map, List.filter_map, List.filter_filter]
    simp only [indexedCollectionMatches, hst, htf]
    refine congrArg (List.map _) (List.filter_congr (fun d hd => ?_))
    simp only [Function.comp]
    rw [statusPred_eq .active (by simp) d c (hstatus c hc d hd),
      typePred_eq t (htype t htf).1 d c (fun s hs => (htype t htf).2 c hc d hd s hs)]
    rw [Bool.and_comm]
  case inactive.none =>
    rw [hfetch, List.filter_flatten, List.map_map]
    refine congrArg List.flatten (List.map_congr_left (fun c hc => ?_))
    simp only [Function.comp]
    rw [List.filter_map]
    simp only [indexedCollectionMatches, hst, htf]
    refine congrArg (List.map _) (List.filter_congr (fun d hd => ?_))
    exact statusPred_eq .inactive (by simp) d c (hstatus c hc d hd)
  case inactive.some =>
    rw [hfetch, List.filter_flatten, List.map_map, List.filter_flatten,
      List.map_map]
    refine congrArg List.flatten (List.map_congr_left (fun c hc => ?_))
    simp only [Function.comp]
    rw [List.filter_map, List.filter_map, List.filter_filter]
    simp only [indexedCollectionMatches, hst, htf]
    refine congrArg (List.map _) (List.filter_congr (fun d hd => ?_))
    simp only [Function.comp]
    rw [statusPred_eq .inactive (by simp) d c (hstatus c hc d hd),
      typePred_eq t (htype t htf).1 d c (fun s hs => (htype t htf).2 c hc d hd s hs)]
    rw [Bool.and_comm]
  case any.none =>
    rw [hfetch]
    refine congrArg List.flatten (List.map_congr_left (fun c hc => ?_))
    simp only [indexedCollectionMatches, hst, htf]
    rw [fetchCollections_single]
  case any.some =>
    rw [hfetch, List.filter_flatten, List.map_map]
    refine congrArg List.flatten (List.map_congr_left (fun c hc => ?_))
    simp only [Function.comp]
    rw [List.filter_map]
    simp only [indexedCollectionMatches, hst, htf]
    refine congrArg (List.map _) (List.filter_congr (fun d hd => ?_))
    exact typePred_eq t (htype t htf).1 d c
      (fun s hs => (htype t htf).2 c hc d hd s hs)

theorem getDatasetType_of_indexable (m : Metric)
    (h : isIndexableMetric m = true) : getDatasetType m = .finance := by
  cases m <;> simp_all [isIndexableMetric, getDatasetType]

theorem isIndexableMetric_of_canUseIndexes (intent : Intent)
    (h : canUseIndexes intent = true) : isIndexableMetric intent.metric = true := by
  have := h
  rw [canUseIndexes, Bool.and_eq_true] at this
  exact this.1

/-- The store and intent of the C1 counterexample: a single document whose
stored status is the non-canonical string `"Active"`. -/
def c1Doc : RawDoc := { id := "d1", status := .str "Active", income := .num 1 }

/-- Single-collection store holding only `c1Doc`. -/
def c1Store : Stores :=
  { finance := fun c => match c with | .college1 => [c1Doc] | _ => []
    sports := [], education := [] }

/-- An indexed-eligible intent with a status filter. -/
def c1Intent : Intent :=
  { metric := .income, collections := [.college1], status := .active
    breakdown := .none, sort := some .asc }

/-- Claim C1 counterexample: for an indexable metric with a status filter and
sort, the indexed path (server-side raw equality `where('status','==',
'active')`) misses a document whose stored status is `"Active"`, while the
forced client-side path (filtering on the substring-normalized status) keeps
it — the two strategies return different record sequences on the same
underlying collection contents. -/
theorem c1_indexed_client_divergence :
    canUseIndexes c1Intent = true ∧
    (indexedFinancePath c1Store c1Intent).records = [] ∧
    (clientSidePath c1Store c1Intent).records.map (fun r => r.id) = ["d1"] :=
  ⟨by decide, by decide, by decide⟩

/-- Claim C1 (amended): the indexed path and the forced client-side path
yield the same ordered record sequence for every indexable-metric intent
with a defined sort, any status/type filters, and any limit — provided the
underlying data is canonical where the two filter semantics could otherwise
diverge: every stored status is exactly `"active"` or `"inactive"`, stored
type strings and the type filter are already lowercase, there is no location
filter (the indexed path ignores location filters), and the collection list
has no duplicates (the client path deduplicates, the indexed path does not). -/
theorem c1_indexed_client_equiv (store : Stores) (intent : Intent)
    (ord : SortOrder)
    (hidx : canUseIndexes intent = true)
    (hsort : intent.sort = some ord)
    (hloc : intent.locationFilter = none)
    (hnodup : intent.collections.Nodup)
    (hstatus : ∀ c ∈ intent.collections, ∀ d ∈ store.finance c,
      d.status = .str "active" ∨ d.status = .str "inactive")
    (htype : ∀ t, intent.typeFilter = some t → jsToLower t = t ∧
      ∀ c ∈ intent.collections, ∀ d ∈ store.finance c, ∀ s : String,
        d.type = .str s → jsToLower s = s) :
    (indexedFinancePath store intent).records =
      (clientSidePath store intent).records ∧
    (execute store intent).records = (clientSidePath store intent).records := by
  have hm : isIndexableMetric intent.metric = true :=
    isIndexableMetric_of_canUseIndexes intent hidx
  have hmain : (indexedFinancePath store intent).records =
      (clientSidePath store intent).records := by
    rw [indexedFinancePath_records_eq store intent ord hm hsort,
      clientSidePath_records_eq store intent ord hsort hloc hnodup hstatus htype]
  refine ⟨hmain, ?_⟩
  have hfin := getDatasetType_of_indexable intent.metric hm
  rw [execute]
  rw [hfin]
  rw [hidx]
  simpa using hmain

/-- Canonical two-collection store for the C1 witness. -/
def c1wStore : Stores :=
  { finance := fun c => match c with
      | .college1 =>
        [{ id := "a1", status := .str "active", type := .str "college"
           income := .num 7 },
         { id := "a2", status := .str "inactive", type := .str "college"
           income := .num 3 }]
      | .school1 =>
        [{ id := "b1", status := .str "active", type := .str "school"
           income := .num 5 }]
      | .school2 => []
    sports := [], education := [] }

/-- Indexed-eligible two-collection intent with a status filter and a limit. -/
def c1wIntent : Intent :=
  { metric := .income, collections := [.college1, .school1], status := .active
    breakdown := .none, sort := some .desc, limit := some 1 }

theorem c1_indexed_client_equiv_witness :
    (indexedFinancePath c1wStore c1wIntent).records =
      (clientSidePath c1wStore c1wIntent).records ∧
    (execute c1wStore c1wIntent).records =
      (clientSidePath c1wStore c1wIntent).records :=
  c1_indexed_client_equiv c1wStore c1wIntent .desc (by decide) (by decide)
    (by decide) (by decide) (by decide)
    (fun t ht => by
      exfalso
      have : (none : Option String) = some t := ht
      exact Option.noConfusion this)

/-- Two-collection store whose local top-3 lists differ from the global
top-3 (all four incomes interleave across the collections). -/
def c5Store : Stores :=
  { finance := fun c => match c with
      | .college1 =>
        [{ id := "g1", status := .str "active", income := .num 10 },
         { id := "g2", status := .str "active", income := .num 9 }]
      | .school1 =>
        [{ id := "g3", status := .str "active", income := .num 1 },
         { id := "g4", status := .str "active", income := .num 8 }]
      | .school2 => []
    sports := [], education := [] }

/-- `income` descending, limit 3, across two collections. -/
def c5Intent : Intent :=
  { metric := .income, collections := [.college1, .school1], status := .any
    breakdown := .none, sort := some .desc, limit := some 3 }

/-- Claim C5: an indexed-path finance query over more than one collection
with sort and (truthy) limit `k` returns the true global top-`k`: the stable
sort of all per-collection matching records, truncated to `k` — not the
concatenation of the per-collection local top-`k` lists. -/
theorem c5_global_topk (store : Stores) (intent : Intent) (ord : SortOrder)
    (k : ℕ)
    (hidx : canUseIndexes intent = true)
    (hsort : intent.sort = some ord)
    (_hmulti : 1 < intent.collections.length)
    (hlim : intent.limit = some k) (hk : k ≠ 0) :
    (execute store intent).records =
      (sortRecordsClientSide
        ((intent.collections.map (indexedCollectionMatches store intent)).flatten)
        intent.metric ord).take k := by
  have hm : isIndexableMetric intent.metric = true :=
    isIndexableMetric_of_canUseIndexes intent hidx
  have hfin := getDatasetType_of_indexable intent.metric hm
  rw [execute, hfin, hidx]
  simp only [if_true]
  rw [indexedFinancePath_records_eq store intent ord hm hsort, hlim,
    applyJsLimit_pos k hk, sortRecordsClientSide]

theorem c5_global_topk_witness :
    (execute c5Store c5Intent).records =
      (sortRecordsClientSide
        ((c5Intent.collections.map (indexedCollectionMatches c5Store c5Intent)).flatten)
        c5Intent.metric .desc).take 3 :=
  c5_global_topk c5Store c5Intent .desc 3 (by decide) (by decide) (by decide)
    (by decide) (by decide)

/-- Claim C3: the finance reader always recomputes the derived fields:
`expenditure` is the sum of the four cost fields, `profit` is income minus
expenditure — for every document (hence for all coerced numeric inputs,
including zero and negative income) — and the stored `expenditure`/`profit`
fields of the document have no influence on the normalized record. -/
theorem c3_derived_fields :
    ∀ (doc : RawDoc) (c : CollectionName),
      (mapDocument doc c).expenditure =
        (mapDocument doc c).rent + (mapDocument doc c).salary +
          (mapDocument doc c).electricity + (mapDocument doc c).misc ∧
      (mapDocument doc c).profit =
        (mapDocument doc c).income - (mapDocument doc c).expenditure ∧
      ∀ e p : RawValue,
        mapDocument { doc with expenditure := e, profit := p } c =
          mapDocument doc c := by
  intro doc c
  refine ⟨?_, ?_, fun e p => rfl⟩
  · simp [mapDocument, expenditureOf]
  · simp [mapDocument, profitOf, expenditureOf]

/-- Which execution paths report `usedIndexes = true`: the finance path when
indexed-eligible, and the dataset paths when a sort is requested. -/
def orderedRetrievalRequested (intent : Intent) : Bool :=
  match getDatasetType intent.metric with
  | .finance => canUseIndexes intent
  | _ => intent.sort.isSome

/-- Intent of the C4 counterexample: indexed-eligible, but with neither a
status nor a type filter, so the indexed path takes its fetch-all-and-sort
sub-branch and issues no server-side ordered query. -/
def c4Intent : Intent :=
  { metric := .income, collections := [.college1], status := .any
    breakdown := .none, sort := some .asc }

/-- Claim C4 counterexample: `execute` reports `usedIndexes = true` for an
indexed-eligible intent with no filters, although the retrieval used no
server-side ordered query (the no-filter sub-branch fetches the whole
collection and sorts in memory), refuting the claimed iff. -/
theorem c4_usedIndexes_divergence :
    (execute c1Store c4Intent).usedIndexes = true ∧
    serverOrderedQueryUsed c4Intent = false ∧
    (execute c1Store c4Intent).executionPath = "firestore-indexes" :=
  ⟨by decide, by decide, by decide⟩

/-- Claim C4 (amended): `usedIndexes` is true iff the intent requested
ordered retrieval (indexable finance metric with a sort; or a sports /
education metric with a sort) — equivalently, iff the executor took the
indexed-eligible finance path or a dataset path with a defined sort.  A
server-side ordered query implies `usedIndexes = true`, but not conversely:
the finance indexed path with no status/type filter reports `true` while
fetching whole collections unordered. -/
theorem c4_usedIndexes (store : Stores) (intent : Intent) :
    (execute store intent).usedIndexes = orderedRetrievalRequested intent ∧
    (!serverOrderedQueryUsed intent || (execute store intent).usedIndexes)
      = true := by
  have hmain : (execute store intent).usedIndexes =
      orderedRetrievalRequested intent := by
    rw [execute, orderedRetrievalRequested]
    cases hdt : getDatasetType intent.metric
    · by_cases h : canUseIndexes intent = true
      · simp [h, indexedFinancePath]
      · have hb : canUseIndexes intent = false := by
          revert h; cases canUseIndexes intent <;> simp
        simp [hb, clientSidePath]
    · simp [executeSportsQuery]
    · simp [executeEducationQuery]
  refine ⟨hmain, ?_⟩
  rw [hmain, orderedRetrievalRequested, serverOrderedQueryUsed]
  cases hdt : getDatasetType intent.metric
  · by_cases h : canUseIndexes intent = true
    · simp [h]
    · have hb : canUseIndexes intent = false := by
        revert h; cases canUseIndexes intent <;> simp
      simp [hb]
  · cases intent.sort <;> simp
  · cases intent.sort <;> simp

theorem foldl_add_eq {α : Type} (f : α → ℚ) :
    ∀ (l : List α) (a : ℚ), l.foldl (fun s r => s + f r) a = a + (l.map f).sum := by
  intro l
  induction l with
  | nil => intro a; simp
  | cons x xs ih =>
    intro a
    simp only [List.foldl_cons, List.map_cons, List.sum_cons, ih]
    ring

theorem collectionNameStr_inj (c c' : CollectionName)
    (h : collectionNameStr c = collectionNameStr c') : c = c' := by
  cases c <;> cases c' <;> first | rfl | (exfalso; simp [collectionNameStr] at h)

theorem sum_map_update (f : CollectionName → ℚ) (a : ℚ) (c₀ : CollectionName) :
    ∀ cols : List CollectionName, cols.Nodup → c₀ ∈ cols →
      (cols.map (fun c => if c = c₀ then a + f c else f c)).sum =
        a + (cols.map f).sum := by
  intro cols
  induction cols with
  | nil => intro _ h; simp at h
  | cons c cs ih =>
    intro hnd hc
    rcases List.nodup_cons.mp hnd with ⟨hnotin, hnd'⟩
    rcases List.mem_cons.mp hc with rfl | hmem
    · have hrest : cs.map (fun x => if x = c₀ then a + f x else f x) =
          cs.map f :=
        List.map_congr_left (fun x hx => by
          rw [if_neg]; intro he; exact hnotin (he ▸ hx))
      simp only [List.map_cons, List.sum_cons, eq_self_iff_true, if_true, hrest]
      ring
    · have hne : c ≠ c₀ := fun he => hnotin (he ▸ hmem)
      simp only [List.map_cons, List.sum_cons, if_neg hne, ih hnd' hmem]
      ring

theorem sum_filter_partition (m : Metric) (cols : List CollectionName)
    (hnodup : cols.Nodup) :
    ∀ l : List CampusRecord,
      (∀ r ∈ l, ∃ c ∈ cols, r.collectionTag = collectionNameStr c) →
      (cols.map (fun c =>
        ((l.filter (fun r => r.collectionTag == collectionNameStr c)).map
          (metricExtractor m)).sum)).sum =
      (l.map (metricExtractor m)).sum := by
  intro l
  induction l with
  | nil => intro _; simp
  | cons r t ih =>
    intro hmem
    obtain ⟨c₀, hc₀, htag⟩ := hmem r (List.mem_cons_self r t)
    have hpred : ∀ c, (r.collectionTag == collectionNameStr c) =
        (decide (c = c₀)) := by
      intro c
      rw [htag]
      by_cases h : c = c₀
      · subst h; simp
      · have hne : collectionNameStr c₀ ≠ collectionNameStr c :=
          fun he => h (collectionNameStr_inj c₀ c he).symm
        simp [h, hne]
    have hmm : cols.map (fun c =>
        (((r :: t).filter
          (fun x => x.collectionTag == collectionNameStr c)).map
          (metricExtractor m)).sum) =
        cols.map (fun c =>
          if c = c₀ then
            metricExtractor m r +
              ((t.filter
                (fun x => x.collectionTag == collectionNameStr c)).map
                (metricExtractor m)).sum
          else
            ((t.filter
              (fun x => x.collectionTag == collectionNameStr c)).map
              (metricExtractor m)).sum) := by
      refine List.map_congr_left (fun c _ => ?_)
      rw [List.filter_cons, hpred c]
      by_cases h : c = c₀
      · simp [h]
      · simp [h]
    rw [hmm, sum_map_update _ _ c₀ cols hnodup hc₀,
      ih (fun x hx => hmem x (List.mem_cons_of_mem r hx))]
    simp

theorem filterByStatus_subset (records : List CampusRecord)
    (st : StatusFilter) : ∀ r ∈ filterByStatus records st, r ∈ records := by
  intro r hr
  cases st with
  | any => exact hr
  | active => exact List.mem_of_mem_filter hr
  | inactive => exact List.mem_of_mem_filter hr

/-- Record and intent of the C2 counterexample: the record's collection is
not among the intent's collections. -/
def c2Rec : CampusRecord := mapDocument { id := "x", income := .num 5 } .school1

/-- Breakdown intent listing only `college1`. -/
def c2Intent : Intent :=
  { metric := .income, collections := [.college1], status := .any
    breakdown := .collection }

/-- Claim C2 counterexample: for a record set containing a record whose
collection is not listed in the intent, the breakdown subtotals (0, for the
one listed collection) do not sum to the total (5): the claimed identity
fails for arbitrary record sets. -/
theorem c2_breakdown_sum_divergence :
    ((aggregateByIntent [c2Rec] c2Intent).breakdown.map (fun b => b.value)).sum
        = 0 ∧
    (aggregateByIntent [c2Rec] c2Intent).total = 5 := by
  have h1 : (aggregateByIntent [c2Rec] c2Intent).breakdown =
      [{ collection := .college1, value := 0 }] := by
    simp +decide [aggregateByIntent, c2Intent, c2Rec, filterByStatus,
      metricExtractor, mapDocument, collectionNameStr, toNumber,
      List.filter_cons]
  have h2 : (aggregateByIntent [c2Rec] c2Intent).total = 5 := by
    simp +decide [aggregateByIntent, c2Intent, c2Rec, filterByStatus,
      metricExtractor, mapDocument, toNumber]
  refine ⟨?_, h2⟩
  rw [h1]
  norm_num

theorem map_breakdown_collection (g : CollectionName → ℚ) :
    ∀ cols : List CollectionName,
      (cols.map (fun c =>
        ({ collection := c, value := g c } : AggregateBreakdown))).map
          (fun b => b.collection) = cols := by
  intro cols
  induction cols with
  | nil => rfl
  | cons c cs ih => simp [ih]

/-- Claim C2 (amended): for a `collection`-mode intent, `aggregateByIntent`
returns one `(collection, subtotal)` pair per intent collection in intent
order, and — whenever every record's collection tag is among the intent's
collections and the intent's collection list has no duplicates — the
subtotals sum exactly to the total. -/
theorem c2_breakdown_sum (records : List CampusRecord) (intent : Intent)
    (hmode : intent.breakdown = .collection)
    (hnodup : intent.collections.Nodup)
    (hmem : ∀ r ∈ records, ∃ c ∈ intent.collections,
      r.collectionTag = collectionNameStr c) :
    (aggregateByIntent records intent).breakdown.map (fun b => b.collection) =
      intent.collections ∧
    ((aggregateByIntent records intent).breakdown.map (fun b => b.value)).sum =
      (aggregateByIntent records intent).total := by
  have hconv : ∀ l : List CampusRecord,
      l.foldl (fun sum r => sum + metricExtractor intent.metric r) 0 =
        (l.map (metricExtractor intent.metric)).sum := by
    intro l
    rw [foldl_add_eq]; ring
  constructor
  · simp only [aggregateByIntent, hmode]
    exact map_breakdown_collection _ intent.collections
  · simp only [aggregateByIntent, hmode, List.map_map]
    rw [hconv]
    have hmem' : ∀ r ∈ filterByStatus records intent.status,
        ∃ c ∈ intent.collections, r.collectionTag = collectionNameStr c :=
      fun r hr => hmem r (filterByStatus_subset records intent.status r hr)
    rw [← sum_filter_partition intent.metric intent.collections hnodup
      (filterByStatus records intent.status) hmem']
    refine congrArg List.sum (List.map_congr_left (fun c _ => ?_))
    simp only [Function.comp]
    rw [hconv]

theorem indexedCollectionQuery_zero_limit (store : Stores) (i : Intent)
    (ord : SortOrder) (c : CollectionName) :
    indexedCollectionQuery store { i with limit := some 0 } ord c =
      indexedCollectionQuery store { i with limit := none } ord c := by
  obtain ⟨m, cols, st, bd, tf, lf, srt, lim⟩ := i
  cases st <;> cases tf <;>
    simp [indexedCollectionQuery, readByStatusSorted, readByTypeSorted,
      readByStatusTypeSorted, serverFinanceQuery, applyJsLimit]

theorem indexedFinancePath_zero_limit (store : Stores) (i : Intent) :
    indexedFinancePath store { i with limit := some 0 } =
      indexedFinancePath store { i with limit := none } := by
  have h : List.map
      (indexedCollectionQuery store { i with limit := some 0 }
        (({ i with limit := some 0 } : Intent).sort.getD SortOrder.asc))
      i.collections =
      List.map
        (indexedCollectionQuery store { i with limit := none }
          (({ i with limit := none } : Intent).sort.getD SortOrder.asc))
        i.collections :=
    List.map_congr_left (fun c _ => indexedCollectionQuery_zero_limit store i _ c)
  simp only [indexedFinancePath]
  rw [h]
  simp [applyJsLimit]

theorem clientSidePath_zero_limit (store : Stores) (i : Intent) :
    clientSidePath store { i with limit := some 0 } =
      clientSidePath store { i with limit := none } := by
  simp [clientSidePath, applyJsLimit]

theorem readSports_zero_limit (sdocs : List RawSportsDoc) (os : Option Status)
    (ot : Option String) (f : Option String) (dirr : Option SortOrder) :
    readSports sdocs ⟨os, ot, f, dirr, some 0⟩ =
      readSports sdocs ⟨os, ot, f, dirr, none⟩ := by
  simp [readSports, applyJsLimit]

theorem readEducation_zero_limit (edocs : List RawEduDoc) (os : Option Status)
    (ot : Option String) (f : Option String) (dirr : Option SortOrder) :
    readEducation edocs ⟨os, ot, f, dirr, some 0⟩ =
      readEducation edocs ⟨os, ot, f, dirr, none⟩ := by
  simp [readEducation, applyJsLimit]

/-- Claim C10: a limit of 0 is falsy in every `if (limit)` guard, so
`execute` (on all of its paths) and the sports/education readers treat
`limit = 0` exactly as an absent limit: every record passing the filters and
sort is returned. -/
theorem c10_zero_limit (store : Stores) (intent : Intent)
    (sdocs : List RawSportsDoc) (edocs : List RawEduDoc)
    (os : Option Status) (ot : Option String) (f : Option String)
    (dirr : Option SortOrder) :
    execute store { intent with limit := some 0 } =
      execute store { intent with limit := none } ∧
    readSports sdocs ⟨os, ot, f, dirr, some 0⟩ =
      readSports sdocs ⟨os, ot, f, dirr, none⟩ ∧
    readEducation edocs ⟨os, ot, f, dirr, some 0⟩ =
      readEducation edocs ⟨os, ot, f, dirr, none⟩ := by
  refine ⟨?_, readSports_zero_limit sdocs os ot f dirr,
    readEducation_zero_limit edocs os ot f dirr⟩
  rw [execute, execute]
  cases hdt : getDatasetType intent.metric
  · by_cases h : canUseIndexes intent = true
    · have h0 : canUseIndexes { intent with limit := some 0 } = true := h
      have h1 : canUseIndexes { intent with limit := none } = true := h
      rw [if_pos h0, if_pos h1]
      exact indexedFinancePath_zero_limit store intent
    · have h0 : ¬ canUseIndexes { intent with limit := some 0 } = true := h
      have h1 : ¬ canUseIndexes { intent with limit := none } = true := h
      rw [if_neg h0, if_neg h1]
      exact clientSidePath_zero_limit store intent
  · simp only [executeSportsQuery]
    rw [readSports_zero_limit]
  · simp only [executeEducationQuery]
    rw [readEducation_zero_limit]

theorem mem_upsertMerged {m : List MergedRecord} {loc : String}
    {init : MergedRecord} {upd : MergedRecord → MergedRecord}
    {row' : MergedRecord} (h : row' ∈ upsertMerged m loc init upd) :
    (∃ row ∈ m, row' = row) ∨ (∃ row ∈ m, row' = upd row) ∨ row' = upd init := by
  unfold upsertMerged at h
  split at h
  · rcases List.mem_map.mp h with ⟨row, hrow, heq⟩
    by_cases hl : (row.location == loc) = true
    · right; left
      exact ⟨row, hrow, by rw [← heq]; simp [hl]⟩
    · left
      refine ⟨row, hrow, ?_⟩
      rw [← heq]
      simp only [hl]
      rw [if_neg]
      simp [hl]
  · rcases List.mem_append.mp h with h1 | h2
    · left; exact ⟨row', h1, rfl⟩
    · right; right
      simpa using h2

theorem mergeFinanceStep_loc {m : List MergedRecord} {r : CampusRecord}
    (h : ∀ row ∈ m, row.location ≠ "") :
    ∀ row ∈ mergeFinanceStep m r, row.location ≠ "" := by
  intro row hrow
  unfold mergeFinanceStep at hrow
  split at hrow
  · exact h row hrow
  · rename_i loc heq
    split at hrow
    · exact h row hrow
    · rename_i hloc
      rcases mem_upsertMerged hrow with ⟨row₀, hr₀, rfl⟩ | ⟨row₀, hr₀, rfl⟩ | rfl
      · exact h _ hr₀
      · exact h row₀ hr₀
      · exact hloc

theorem mergeSportsStep_loc {m : List MergedRecord} {r : SportsRecord}
    (h : ∀ row ∈ m, row.location ≠ "") :
    ∀ row ∈ mergeSportsStep m r, row.location ≠ "" := by
  intro row hrow
  unfold mergeSportsStep at hrow
  split at hrow
  · exact h row hrow
  · rename_i hloc
    rcases mem_upsertMerged hrow with ⟨row₀, hr₀, rfl⟩ | ⟨row₀, hr₀, rfl⟩ | rfl
    · exact h _ hr₀
    · exact h row₀ hr₀
    · exact hloc

theorem mergeEduStep_loc {m : List MergedRecord} {r : EducationRecord}
    (h : ∀ row ∈ m, row.location ≠ "") :
    ∀ row ∈ mergeEduStep m r, row.location ≠ "" := by
  intro row hrow
  unfold mergeEduStep at hrow
  split at hrow
  · exact h row hrow
  · rename_i hloc
    rcases mem_upsertMerged hrow with ⟨row₀, hr₀, rfl⟩ | ⟨row₀, hr₀, rfl⟩ | rfl
    · exact h _ hr₀
    · exact h row₀ hr₀
    · exact hloc

theorem foldl_merge_loc {β : Type} (step : List MergedRecord → β → List MergedRecord)
    (hstep : ∀ m b, (∀ row ∈ m, row.location ≠ "") →
      ∀ row ∈ step m b, row.location ≠ "") :
    ∀ (l : List β) (m : List MergedRecord),
      (∀ row ∈ m, row.location ≠ "") →
      ∀ row ∈ l.foldl step m, row.location ≠ "" := by
  intro l
  induction l with
  | nil => intro m h; exact h
  | cons b t ih => intro m h; exact ih (step m b) (hstep m b h)

theorem crossFilterLocation_subset (ci : CrossCollectionIntent)
    (rows : List MergedRecord) :
    ∀ row ∈ crossFilterLocation ci rows, row ∈ rows := by
  intro row hrow
  unfold crossFilterLocation at hrow
  rcases h : ci.locationFilter with _ | loc
  · rw [h] at hrow; exact hrow
  · rw [h] at hrow; exact List.mem_of_mem_filter hrow

theorem crossFilterStatus_subset (ci : CrossCollectionIntent)
    (rows : List MergedRecord) :
    ∀ row ∈ crossFilterStatus ci rows, row ∈ rows := by
  intro row hrow
  unfold crossFilterStatus at hrow
  rcases h : ci.status with _ | st
  · rw [h] at hrow; exact hrow
  · rw [h] at hrow
    cases st
    · exact List.mem_of_mem_filter hrow
    · exact List.mem_of_mem_filter hrow
    · exact hrow

theorem crossFilterType_subset (ci : CrossCollectionIntent)
    (rows : List MergedRecord) :
    ∀ row ∈ crossFilterType ci rows, row ∈ rows := by
  intro row hrow
  unfold crossFilterType at hrow
  rcases h : ci.typeFilter with _ | t
  · rw [h] at hrow; exact hrow
  · rw [h] at hrow; exact List.mem_of_mem_filter hrow

theorem crossApplyFilters_subset (ci : CrossCollectionIntent)
    (rows : List MergedRecord) :
    ∀ row ∈ crossApplyFilters ci rows, row ∈ rows := by
  intro row hrow
  exact crossFilterLocation_subset ci rows row
    (crossFilterStatus_subset ci _ row
      (crossFilterType_subset ci _ row hrow))

/-- Store of the C6 counterexample: two finance documents, both without any
`location` field. -/
def c6Store : Stores :=
  { finance := fun c => match c with
      | .college1 => [{ id := "a", income := .num 5 },
                      { id := "b", income := .num 7 }]
      | _ => []
    sports := [], education := [] }

/-- Claim C6 counterexample: both no-location finance records are present in
the store, yet the cross-collection merge returns no merged row at all —
`if (!location) return` skips them instead of bucketing them under the
empty-string key. -/
theorem c6_location_merge_divergence :
    (executeCrossCollectionQuery c6Store { metrics := [.income] }).1 = [] ∧
    (c6Store.finance .college1).length = 2 ∧
    (c6Store.finance .college1).all (fun d => d.location == .missing) = true :=
  ⟨by decide, by decide, by decide⟩

/-- Claim C6 (amended): in `executeCrossCollectionQuery`, every record whose
location is absent or empty is skipped — each merged row in the output has a
non-empty location, so no empty-string bucket ever appears there.  The
empty-string bucketing holds in the separate location-table merge
(`mergeByLocation`, merge.ts): two finance records without a `location`
field land together in the single row keyed by the empty string. -/
theorem c6_location_merge (store : Stores) (ci : CrossCollectionIntent)
    (f1 f2 : CampusRecord) (h1 : f1.location = none) (h2 : f2.location = none) :
    (∀ row ∈ (executeCrossCollectionQuery store ci).1, row.location ≠ "") ∧
    mergeByLocation [f1, f2] [] [] =
      [{ location := "", finance := [f1, f2] }] := by
  constructor
  · intro row hrow
    have hbase : ∀ x ∈ ([] : List MergedRecord), x.location ≠ "" := by
      intro x hx; simp at hx
    have hf := foldl_merge_loc mergeFinanceStep
      (fun m b h => mergeFinanceStep_loc h) (crossFinanceRecs store ci) _ hbase
    have hs := foldl_merge_loc mergeSportsStep
      (fun m b h => mergeSportsStep_loc h) (crossSportsRecs store ci) _ hf
    have he := foldl_merge_loc mergeEduStep
      (fun m b h => mergeEduStep_loc h) (crossEduRecs store ci) _ hs
    have hmem : row ∈ crossMergeRows store ci :=
      crossApplyFilters_subset ci _ row hrow
    exact he row hmem
  · simp [mergeByLocation, upsertRow, finLocKey, h1, h2]

/-- Concrete records for the C6 witness (both mapped from documents without
a `location` field). -/
def c6wRec1 : CampusRecord := mapDocument { id := "a", income := .num 5 } .college1

/-- Second no-location record for the C6 witness. -/
def c6wRec2 : CampusRecord := mapDocument { id := "b", income := .num 7 } .college1

theorem c6_location_merge_witness :
    (∀ row ∈ (executeCrossCollectionQuery c6Store { metrics := [.income] }).1,
      row.location ≠ "") ∧
    mergeByLocation [c6wRec1, c6wRec2] [] [] =
      [{ location := "", finance := [c6wRec1, c6wRec2] }] :=
  c6_location_merge c6Store { metrics := [.income] } c6wRec1 c6wRec2 rfl rfl

theorem mem_ssort {α : Type} {key : α → ℚ} {l : List α} {z : α} :
    z ∈ ssort key l ↔ z ∈ l :=
  (perm_ssort key l).mem_iff

theorem applyJsLimit_subset {α : Type} (lim : Option ℕ) (l : List α) :
    ∀ z ∈ applyJsLimit lim l, z ∈ l := by
  intro z hz
  rcases lim with _ | k
  · exact hz
  · by_cases hk : k = 0
    · subst hk; exact hz
    · rw [applyJsLimit_pos k hk] at hz
      exact List.take_subset k l hz

/-- Every record produced by `readSports` is the normalization of some
stored document. -/
theorem readSports_mem (docs : List RawSportsDoc) (opts : DatasetReadOpts)
    (rec : SportsRecord) (h : rec ∈ readSports docs opts) :
    ∃ d ∈ docs, rec = sportsDocToRecord d := by
  obtain ⟨os, ot, f, dirr, lim⟩ := opts
  cases os <;> cases ot <;> cases f <;>
    simp only [readSports] at h <;>
    rcases List.mem_map.mp h with ⟨d, hd, hfd⟩ <;>
    refine ⟨d, ?_, hfd.symm⟩ <;>
    have hd' := applyJsLimit_subset _ _ _ hd <;>
    first
      | exact hd'
      | exact List.mem_of_mem_filter hd'
      | exact List.mem_of_mem_filter (List.mem_of_mem_filter hd')
      | (rw [mem_ssort] at hd'
         first
           | exact hd'
           | exact List.mem_of_mem_filter hd'
           | exact List.mem_of_mem_filter (List.mem_of_mem_filter hd'))

/-- Every record produced by `readEducation` is the normalization of some
stored document. -/
theorem readEducation_mem (docs : List RawEduDoc) (opts : DatasetReadOpts)
    (rec : EducationRecord) (h : rec ∈ readEducation docs opts) :
    ∃ d ∈ docs, rec = eduDocToRecord d := by
  obtain ⟨os, ot, f, dirr, lim⟩ := opts
  cases os <;> cases ot <;> cases f <;>
    simp only [readEducation] at h <;>
    rcases List.mem_map.mp h with ⟨d, hd, hfd⟩ <;>
    refine ⟨d, ?_, hfd.symm⟩ <;>
    have hd' := applyJsLimit_subset _ _ _ hd <;>
    first
      | exact hd'
      | exact List.mem_of_mem_filter hd'
      | exact List.mem_of_mem_filter (List.mem_of_mem_filter hd')
      | (rw [mem_ssort] at hd'
         first
           | exact hd'
           | exact List.mem_of_mem_filter hd'
           | exact List.mem_of_mem_filter (List.mem_of_mem_filter hd'))

/-- The exact, case-sensitive three-way mapping the executor applies to the
loosely-typed status of a sports/education record
(`r.status === 'active' ? ... : r.status === 'inactive' ? ... : 'unknown'`). -/
def exactStatusCanon (v : RawValue) : CampusStatus :=
  if v == .str "active" then .active
  else if v == .str "inactive" then .inactive
  else .unknown

/-- Sports store of the C7 counterexample: one document with no `status`
field at all. -/
def c7Store : Stores :=
  { finance := fun _ => []
    sports := [{ code := .num 9, location := .str "Z" }]
    education := [] }

/-- A sports-metric intent. -/
def c7Intent : Intent :=
  { metric := .medals, collections := [], status := .any, breakdown := .none }

/-- Claim C7 counterexample: a sports document with a missing status yields
an executed record with status `active` (via the reader's `?? "active"`
default and the executor's exact-equality conversion), whereas the claimed
substring-based derivation maps a missing status to `unknown`. -/
theorem c7_status_divergence :
    (execute c7Store c7Intent).records.map (fun r => r.status) = [.active] ∧
    normalizeStatus .missing = .unknown ∧
    CampusStatus.active ≠ CampusStatus.unknown :=
  ⟨by decide, rfl, by decide⟩

/-- Claim C7 (amended): the finance reader derives `status` from the raw
status by the case-insensitive substring rule (trim + lowercase; `inactive`
wins over `active`; non-strings — including a missing status — map to
`unknown`).  The sports/education readers instead keep the raw status value,
defaulting a missing one to the string `"active"`, and the executor's
conversion maps that raw value onto the three-valued union by exact,
case-sensitive equality with `"active"`/`"inactive"` (everything else
becoming `unknown`). -/
theorem c7_status_normalization :
    (∀ (doc : RawDoc) (c : CollectionName),
      (mapDocument doc c).status = normalizeStatus doc.status) ∧
    (∀ s : String, normalizeStatus (.str s) =
      (if strIncludes (jsToLower (jsTrim s)) "inactive" then .inactive
       else if strIncludes (jsToLower (jsTrim s)) "active" then .active
       else .unknown)) ∧
    (∀ v : RawValue, (∀ s, v ≠ .str s) → normalizeStatus v = .unknown) ∧
    (∀ (store : Stores) (intent : Intent),
      (executeSportsQuery store intent).records.all
        (fun r => decide (∃ d ∈ store.sports,
          r.status = exactStatusCanon (nullishDefault d.status (.str "active"))))
        = true) ∧
    (∀ (store : Stores) (intent : Intent),
      (executeEducationQuery store intent).records.all
        (fun r => decide (∃ d ∈ store.education,
          r.status = exactStatusCanon (nullishDefault d.status (.str "active"))))
        = true) := by
  refine ⟨fun doc c => rfl, fun s => rfl, ?_, ?_, ?_⟩
  · intro v hv
    cases v with
    | str s => exact absurd rfl (hv s)
    | num q => rfl
    | missing => rfl
    | other => rfl
  · intro store intent
    rw [List.all_eq_true]
    intro r hr
    simp only [executeSportsQuery, List.mem_map] at hr
    rcases hr with ⟨rec, hrec, rfl⟩
    have hrec' : rec ∈ readSports store.sports
        { status := match intent.status with
            | .any => none
            | .active => some .active
            | .inactive => some .inactive
          type := intent.typeFilter
          orderField := if intent.sort.isSome then
              some (if intent.metric = Metric.sports_budget then "budget"
                else metricStr intent.metric)
            else none
          orderDir := intent.sort
          limit := intent.limit } := by
      rcases hlf : intent.locationFilter with _ | loc
      · rw [hlf] at hrec; exact hrec
      · rw [hlf] at hrec; exact List.mem_of_mem_filter hrec
    obtain ⟨d, hd, rfl⟩ := readSports_mem _ _ _ hrec'
    rw [decide_eq_true_eq]
    exact ⟨d, hd, rfl⟩
  · intro store intent
    rw [List.all_eq_true]
    intro r hr
    simp only [executeEducationQuery, List.mem_map] at hr
    rcases hr with ⟨rec, hrec, rfl⟩
    have hrec' : rec ∈ readEducation store.education
        { status := match intent.status with
            | .any => none
            | .active => some .active
            | .inactive => some .inactive
          type := intent.typeFilter
          orderField := if intent.sort.isSome then
              some (metricStr intent.metric)
            else none
          orderDir := intent.sort
          limit := intent.limit } := by
      rcases hlf : intent.locationFilter with _ | loc
      · rw [hlf] at hrec; exact hrec
      · rw [hlf] at hrec; exact List.mem_of_mem_filter hrec
    obtain ⟨d, hd, rfl⟩ := readEducation_mem _ _ _ hrec'
    rw [decide_eq_true_eq]
    exact ⟨d, hd, rfl⟩

/-- Store of the C8 counterexample: two documents in `college1`. -/
def c8Store : Stores :=
  { finance := fun c => match c with
      | .college1 => [{ id := "a", income := .num 5 },
                      { id := "b", income := .num 2 }]
      | _ => []
    sports := [], education := [] }

/-- Indexed-eligible intent with no filters and limit 1: the no-filter
branch fetches both documents but returns (and counts) only one. -/
def c8Intent : Intent :=
  { metric := .income, collections := [.college1], status := .any
    breakdown := .none, sort := some .asc, limit := some 1 }

/-- Claim C8 counterexample: the indexed path fetched 2 documents from the
store but reports `docsRead = 1` — the in-memory re-sort/re-limit does
reduce `docsRead`, contradicting the claim that it counts documents fetched
before in-memory processing. -/
theorem c8_docsRead_divergence :
    (execute c8Store c8Intent).docsRead = 1 ∧
    (c8Store.finance .college1).length = 2 ∧
    (execute c8Store c8Intent).usedIndexes = true :=
  ⟨by decide, by decide, by decide⟩

/-- Claim C8 (amended): `docsRead` counts pre-filter fetched documents only
on the client-side finance path and the cross-collection merge path.  On the
indexed finance path and the sports/education dataset paths it equals the
number of records returned (after limiting, and after the in-memory location
filter on the dataset paths).  The merge path's `docsRead` is the total
number of fetched records before merging and filtering, and is unaffected by
the location filter. -/
theorem c8_docsRead (store : Stores) (intent : Intent)
    (ci : CrossCollectionIntent) (loc : String) :
    (execute store intent).docsRead =
      (match getDatasetType intent.metric with
       | DatasetType.finance =>
         if canUseIndexes intent then (execute store intent).records.length
         else (fetchCollections store intent.collections).length
       | _ => (execute store intent).records.length) ∧
    (executeCrossCollectionQuery store ci).2 =
      (crossFinanceRecs store ci).length + (crossSportsRecs store ci).length +
        (crossEduRecs store ci).length ∧
    (executeCrossCollectionQuery store
        { ci with locationFilter := some loc }).2 =
      (executeCrossCollectionQuery store { ci with locationFilter := none }).2 := by
  refine ⟨?_, rfl, rfl⟩
  cases hdt : getDatasetType intent.metric
  · by_cases h : canUseIndexes intent = true
    · simp only [execute, hdt, h, if_true, indexedFinancePath]
    · have hb : canUseIndexes intent = false := by
        revert h; cases canUseIndexes intent <;> simp
      simp [execute, hdt, hb, clientSidePath]
  · simp [execute, hdt, executeSportsQuery]
  · simp [execute, hdt, executeEducationQuery]

theorem readSports_limit_take (docs : List RawSportsDoc) (os : Option Status)
    (ot : Option String) (f : Option String) (dirr : Option SortOrder)
    (k : ℕ) (hk : k ≠ 0) :
    readSports docs ⟨os, ot, f, dirr, some k⟩ =
      (readSports docs ⟨os, ot, f, dirr, none⟩).take k := by
  simp only [readSports]
  rw [applyJsLimit_pos k hk, applyJsLimit_none, List.map_take]

theorem readEducation_limit_take (docs : List RawEduDoc) (os : Option Status)
    (ot : Option String) (f : Option String) (dirr : Option SortOrder)
    (k : ℕ) (hk : k ≠ 0) :
    readEducation docs ⟨os, ot, f, dirr, some k⟩ =
      (readEducation docs ⟨os, ot, f, dirr, none⟩).take k := by
  simp only [readEducation]
  rw [applyJsLimit_pos k hk, applyJsLimit_none, List.map_take]

/-- Sports store of the C9 counterexample: the top-`medals` document is at
location "X", the other at "Y". -/
def c9Store : Stores :=
  { finance := fun _ => []
    sports :=
      [{ code := .num 1, location := .str "X", status := .str "active"
         type := .str "school", medals := .num 5 },
       { code := .num 2, location := .str "Y", status := .str "active"
         type := .str "school", medals := .num 3 }]
    education := [] }

/-- Sports intent with a location filter and limit 1. -/
def c9Intent : Intent :=
  { metric := .medals, collections := [], status := .any, breakdown := .none
    sort := some .desc, limit := some 1, locationFilter := some "y" }

/-- The same intent without the limit. -/
def c9IntentU : Intent :=
  { metric := .medals, collections := [], status := .any, breakdown := .none
    sort := some .desc, locationFilter := some "y" }

/-- Claim C9 counterexample: with a location filter, the sports path applies
the store-side limit before the in-memory location filter, so `execute` with
`limit = 1` returns 0 records although exactly one record matches all
non-limit filters — `min(1, 1) = 1`, not 0. -/
theorem c9_limit_divergence :
    (execute c9Store c9Intent).records.length = 0 ∧
    (execute c9Store c9IntentU).records.length = 1 ∧
    min 1 (execute c9Store c9IntentU).records.length ≠
      (execute c9Store c9Intent).records.length :=
  ⟨by decide, by decide, by decide⟩

/-- Claim C9 (amended): for every intent without a location filter and with
a (truthy) limit `k ≥ 1`, `execute` returns exactly the first `k` records of
the unlimited result — a sort-order-respecting prefix — and hence
`min(k, N)` records, where `N` is the number of records the same intent
returns with no limit (the records matching all non-limit filters on the
path taken). -/
theorem c9_limit_prefix (store : Stores) (intent : Intent) (k : ℕ)
    (hk : 1 ≤ k) (hlim : intent.limit = some k)
    (hloc : intent.locationFilter = none) :
    (execute store intent).records =
      ((execute store { intent with limit := none }).records).take k ∧
    (execute store intent).records.length =
      min k (execute store { intent with limit := none }).records.length := by
  have hk0 : k ≠ 0 := by omega
  have hmain : (execute store intent).records =
      ((execute store { intent with limit := none }).records).take k := by
    obtain ⟨m, cols, st, bd, tf, lf, srt, lim⟩ := intent
    simp only at hlim hloc
    subst hlim
    subst hloc
    rw [execute, execute]
    cases hdt : getDatasetType m
    · by_cases h : canUseIndexes ⟨m, cols, st, bd, tf, none, srt, some k⟩ = true
      · have h' : canUseIndexes ⟨m, cols, st, bd, tf, none, srt, none⟩ = true := h
        rw [if_pos h, if_pos h']
        have hsome : srt.isSome = true := by
          rw [canUseIndexes, Bool.and_eq_true] at h
          exact h.2
        obtain ⟨ord, hsort⟩ := Option.isSome_iff_exists.mp hsome
        have hm : isIndexableMetric m = true :=
          isIndexableMetric_of_canUseIndexes _ h
        rw [indexedFinancePath_records_eq store
          ⟨m, cols, st, bd, tf, none, srt, some k⟩ ord hm hsort]
        rw [indexedFinancePath_records_eq store
          ⟨m, cols, st, bd, tf, none, srt, none⟩ ord hm hsort]
        have hM : indexedCollectionMatches store
            ⟨m, cols, st, bd, tf, none, srt, none⟩ =
            indexedCollectionMatches store
              ⟨m, cols, st, bd, tf, none, srt, some k⟩ := rfl
        rw [hM]
        rw [show (⟨m, cols, st, bd, tf, none, srt, some k⟩ : Intent).limit =
          some k from rfl]
        rw [show (⟨m, cols, st, bd, tf, none, srt, none⟩ : Intent).limit =
          none from rfl]
        rw [applyJsLimit_pos k hk0, applyJsLimit_none]
      · have h' : ¬ canUseIndexes ⟨m, cols, st, bd, tf, none, srt, none⟩ = true := h
        rw [if_neg h, if_neg h']
        have hcl : (clientSidePath store
            ⟨m, cols, st, bd, tf, none, srt, some k⟩).records =
            applyJsLimit (some k)
              ((clientSidePath store
                ⟨m, cols, st, bd, tf, none, srt, none⟩).records) := rfl
        rw [hcl, applyJsLimit_pos k hk0]
    · simp only [executeSportsQuery]
      rw [readSports_limit_take _ _ _ _ _ k hk0, List.map_take]
    · simp only [executeEducationQuery]
      rw [readEducation_limit_take _ _ _ _ _ k hk0, List.map_take]
  refine ⟨hmain, ?_⟩
  rw [hmain, List.length_take]

/-- Records of the C2 witness, one per listed collection. -/
def c2wRec1 : CampusRecord := mapDocument { id := "w1", income := .num 2 } .college1

def c2wRec2 : CampusRecord := mapDocument { id := "w2", income := .num 3 } .school1

/-- Breakdown intent of the C2 witness listing both collections. -/
def c2wIntent : Intent :=
  { metric := .income, collections := [.college1, .school1], status := .any
    breakdown := .collection }

theorem c2_breakdown_sum_witness :
    c2wIntent.breakdown = BreakdownMode.collection ∧
    c2wIntent.collections.Nodup ∧
    (∀ r ∈ [c2wRec1, c2wRec2], ∃ c ∈ c2wIntent.collections,
      r.collectionTag = collectionNameStr c) ∧
    ((aggregateByIntent [c2wRec1, c2wRec2] c2wIntent).breakdown.map
        (fun b => b.collection) = c2wIntent.collections ∧
      ((aggregateByIntent [c2wRec1, c2wRec2] c2wIntent).breakdown.map
          (fun b => b.value)).sum =
        (aggregateByIntent [c2wRec1, c2wRec2] c2wIntent).total) :=
  ⟨rfl, by decide, by decide,
    c2_breakdown_sum [c2wRec1, c2wRec2] c2wIntent rfl (by decide) (by decide)⟩

/-- Sports intent of the C9 witness: limit 1, no location filter. -/
def c9wIntent : Intent :=
  { metric := .medals, collections := [], status := .any, breakdown := .none
    sort := some .desc, limit := some 1 }

theorem c9_limit_prefix_witness :
    1 ≤ 1 ∧ c9wIntent.limit = some 1 ∧ c9wIntent.locationFilter = none ∧
    ((execute c9Store c9wIntent).records =
      ((execute c9Store { c9wIntent with limit := none }).records).take 1 ∧
     (execute c9Store c9wIntent).records.length =
      min 1 (execute c9Store { c9wIntent with limit := none }).records.length) :=
  ⟨by decide, rfl, rfl, c9_limit_prefix c9Store c9wIntent 1 (by decide) rfl rfl⟩

theorem c7_status_normalization_witness :
    (∀ s : String, RawValue.num 3 ≠ RawValue.str s) ∧
    normalizeStatus (RawValue.num 3) = CampusStatus.unknown :=
  ⟨(fun s h => by cases h),
    c7_status_normalization.2.2.1 (RawValue.num 3) (fun s h => by cases h)⟩
